import Mathlib

/-!
Verification of the `kellylino/compiler` pipeline: a shallow embedding in Lean 4
of the tokenizer, parser, type checker, IR generator and assembly generator
(`src/compiler/*.py`), followed by theorems settling the frozen claims.

Conventions of the embedding:
* Python exceptions become `Except String`; the error string mirrors the
  exception message (or names the exception class for `AssertionError`,
  `TypeError`, `KeyError`, `IndexError` raised by the runtime itself).
* Mutable state (the parser's token cursor, the IR generator's counters, label
  list and instruction list, the mutable symbol-table frames) is threaded
  explicitly.  A parent-linked symbol table becomes a list of frames, innermost
  first; only the innermost frame is ever written by the embedded stages, so a
  stage returns the updated frame list.
* Python integers are `Int`; the parser, tokenizer and recursive-descent loops
  use a fuel parameter large enough for every input that terminates in Python.
-/

/-! ## Source locations and tokens (`tokenizer.py`) -/

/-- `Location` from `tokenizer.py`: a 1-based line/column pair. -/
structure Location where
  line : Nat
  column : Nat
deriving Repr, DecidableEq

/-- The token kinds of `tokenizer.py` (`TokenType`). -/
inductive TokenType where
  | int_literal
  | identifier
  | operators
  | punctuation
  | other
  | endTok
deriving Repr, DecidableEq

/-- `Token` from `tokenizer.py` (the wildcard-location test equality is not
modelled; the pipeline itself only reads `text`, `type` and `loc`). -/
structure Token where
  text : String
  ttype : TokenType
  loc : Location
deriving Repr, DecidableEq

/-- Python's `str.isspace` restricted to the whitespace characters that can
occur in the sources considered here (`'\n'` is handled before this test). -/
def isSpaceChar (c : Char) : Bool :=
  c = ' ' || c = '\t' || c = '\r'

def isIdentStart (c : Char) : Bool :=
  (c ≥ 'a' && c ≤ 'z') || (c ≥ 'A' && c ≤ 'Z') || c = '_'

def isIdentChar (c : Char) : Bool :=
  isIdentStart c || (c ≥ '0' && c ≤ '9')

def isDigitChar (c : Char) : Bool :=
  c ≥ '0' && c ≤ '9'

/-- Greedy `[a-zA-Z_][a-zA-Z0-9_]*` match (the `identifiers` regex). -/
def matchIdent : List Char → Option (List Char × List Char)
  | [] => none
  | c :: rest =>
    if isIdentStart c then
      let tail := rest.takeWhile isIdentChar
      some (c :: tail, rest.dropWhile isIdentChar)
    else none

/-- Greedy `[0-9][0-9]*` match (the `non_negative_integer` regex). -/
def matchInt : List Char → Option (List Char × List Char)
  | [] => none
  | c :: rest =>
    if isDigitChar c then
      let tail := rest.takeWhile isDigitChar
      some (c :: tail, rest.dropWhile isDigitChar)
    else none

/-- The alternatives of the `operators` regex, tried in order
(`==|!=|<=|>=|\+|\-|\*|/|%|=|<|>`). -/
def operatorAlternatives : List (List Char) :=
  [['=', '='], ['!', '='], ['<', '='], ['>', '='],
   ['+'], ['-'], ['*'], ['/'], ['%'], ['='], ['<'], ['>']]

def matchOperator (cs : List Char) : Option (List Char × List Char) :=
  (operatorAlternatives.find? (fun alt => alt.isPrefixOf cs)).map
    (fun alt => (alt, cs.drop alt.length))

/-- The `[\(\)\{\},;]` punctuation regex. -/
def matchPunct : List Char → Option (List Char × List Char)
  | [] => none
  | c :: rest =>
    if c = '(' || c = ')' || c = '\x7b' || c = '\x7d' || c = ',' || c = ';' then
      some ([c], rest)
    else none

/-- One pass of the pattern list `[(identifiers, ...), (non_negative_integer,
...), (operators, ...), (punctuation, ...)]`, in order. -/
def matchPatterns (cs : List Char) : Option (List Char × TokenType × List Char) :=
  match matchIdent cs with
  | some (txt, rest) => some (txt, .identifier, rest)
  | none =>
    match matchInt cs with
    | some (txt, rest) => some (txt, .int_literal, rest)
    | none =>
      match matchOperator cs with
      | some (txt, rest) => some (txt, .operators, rest)
      | none =>
        match matchPunct cs with
        | some (txt, rest) => some (txt, .punctuation, rest)
        | none => none

/-- The scanning loop of `tokenize`.  The fuel starts at one more than the
number of characters; every iteration consumes at least one character, so the
fuel never runs out on the way to the end of the string. -/
def tokenizeAux : Nat → List Char → Nat → Nat → List Token
  | 0, _, _, _ => []
  | _, [], _, _ => []
  | fuel + 1, c :: rest, line, column =>
    if c = '\n' then
      tokenizeAux fuel rest (line + 1) 1
    else if isSpaceChar c then
      tokenizeAux fuel rest line (column + 1)
    else if (c = '/' && rest.head? = some '/') || c = '#' then
      tokenizeAux fuel ((c :: rest).dropWhile (· ≠ '\n')) line column
    else
      let loc : Location := ⟨line, column⟩
      match matchPatterns (c :: rest) with
      | some (txt, tt, remaining) =>
        ⟨⟨txt⟩, tt, loc⟩ :: tokenizeAux fuel remaining line (column + txt.length)
      | none =>
        ⟨⟨[c]⟩, .other, loc⟩ :: tokenizeAux fuel rest line (column + 1)

/-- `tokenize` from `tokenizer.py`. -/
def tokenize (source_code : String) : List Token :=
  tokenizeAux (source_code.length + 1) source_code.toList 1 1

/-! ## Types (`types.py`) -/

/-- The closed type tag set of `types.py`: `IntType`, `BoolType`, `UnitType`,
`FunType(params, return_type)`. -/
inductive Ty where
  | int
  | bool
  | unit
  | funT (params : List Ty) (return_type : Ty)

mutual

/-- Structural equality of types (Python dataclass `==`). -/
def Ty.beq : Ty → Ty → Bool
  | .int, .int => true
  | .bool, .bool => true
  | .unit, .unit => true
  | .funT ps r, .funT qs s =>
    Ty.beqList ps qs && Ty.beq r s
  | _, _ => false

def Ty.beqList : List Ty → List Ty → Bool
  | [], [] => true
  | a :: as_, b :: bs => Ty.beq a b && Ty.beqList as_ bs
  | _, _ => false

end

instance : BEq Ty := ⟨Ty.beq⟩

mutual

theorem Ty.beq_iff : ∀ a b : Ty, Ty.beq a b = true ↔ a = b
  | .int, b => by cases b <;> simp [Ty.beq]
  | .bool, b => by cases b <;> simp [Ty.beq]
  | .unit, b => by cases b <;> simp [Ty.beq]
  | .funT ps r, b => by
    cases b with
    | funT qs s =>
      have hr := Ty.beq_iff r s
      have hl := Ty.beqList_iff ps qs
      simp [Ty.beq, hr, hl, and_comm]
    | int => simp [Ty.beq]
    | bool => simp [Ty.beq]
    | unit => simp [Ty.beq]

theorem Ty.beqList_iff : ∀ as_ bs : List Ty, Ty.beqList as_ bs = true ↔ as_ = bs
  | [], bs => by cases bs <;> simp [Ty.beqList]
  | a :: as_, [] => by simp [Ty.beqList]
  | a :: as_, b :: bs => by
    have h1 := Ty.beq_iff a b
    have h2 := Ty.beqList_iff as_ bs
    simp [Ty.beqList, h1, h2]

end

instance : DecidableEq Ty :=
  fun a b => decidable_of_iff _ (Ty.beq_iff a b)

instance : LawfulBEq Ty where
  eq_of_beq h := (Ty.beq_iff _ _).mp h
  rfl := fun {a} => (Ty.beq_iff a a).mpr rfl

/-! ## AST (`ast.py`)

Every node carries the `loc` and the mutable `type` slot (here `ty`, default
`Unit` at construction).  Two fields are dynamically typed in the Python code
and are therefore modelled as small sums:

* `VarExpr.name` is declared `str`, but `parse_var_expression` stores the
  `ast.Expression` returned by `parse_factor()` in it (`VarName`);
* `FunctionTypeExpr.return_type` / `.param_types` are declared
  `Expression` / `list[Expression] | None`, but `parse_var_expression` passes
  its arguments positionally as `FunctionTypeExpr(loc, param_types,
  return_type)`, so each field can hold an expression, a list of expressions,
  or `None` at run time (`FTField`).
-/

/-- `Literal.value : int | bool` (plus `None`, which `ir_generator.py`
explicitly handles in its `Literal` case). -/
inductive LitVal where
  | intV (i : Int)
  | boolV (b : Bool)
  | noneV
deriving Repr, DecidableEq

mutual

/-- The AST expression cases of `ast.py`. -/
inductive Expression where
  | literal (loc : Location) (ty : Ty) (value : LitVal)
  | identifier (loc : Location) (ty : Ty) (name : String)
  | unaryOp (loc : Location) (ty : Ty) (op : String) (operand : Expression)
  | binaryOp (loc : Location) (ty : Ty) (left : Expression) (op : String)
      (right : Expression)
  | ifThenElse (loc : Location) (ty : Ty) (condition : Expression)
      (then_branch : Expression) (else_branch : Option Expression)
  | whileE (loc : Location) (ty : Ty) (condition : Expression) (body : Expression)
  | functionExpr (loc : Location) (ty : Ty) (function_name : Expression)
      (arguments : List Expression)
  | blockE (loc : Location) (ty : Ty) (statements : List Expression)
  | funTypeE (loc : Location) (ty : Ty) (return_type : FTField)
      (param_types : FTField)
  | varE (loc : Location) (ty : Ty) (name : VarName) (initializer : Expression)
      (typed : Option Expression)

/-- Run-time content of `VarExpr.name`. -/
inductive VarName where
  | str (s : String)
  | exprName (e : Expression)

/-- Run-time content of the two `FunctionTypeExpr` fields. -/
inductive FTField where
  | noneF
  | one (e : Expression)
  | many (es : List Expression)

end

/-- The `loc` attribute shared by all AST nodes. -/
def Expression.loc : Expression → Location
  | .literal l _ _ => l
  | .identifier l _ _ => l
  | .unaryOp l _ _ _ => l
  | .binaryOp l _ _ _ _ => l
  | .ifThenElse l _ _ _ _ => l
  | .whileE l _ _ _ => l
  | .functionExpr l _ _ _ => l
  | .blockE l _ _ => l
  | .funTypeE l _ _ _ => l
  | .varE l _ _ _ _ => l

/-- The `type` attribute shared by all AST nodes. -/
def Expression.ty : Expression → Ty
  | .literal _ t _ => t
  | .identifier _ t _ => t
  | .unaryOp _ t _ _ => t
  | .binaryOp _ t _ _ _ => t
  | .ifThenElse _ t _ _ _ => t
  | .whileE _ t _ _ => t
  | .functionExpr _ t _ _ => t
  | .blockE _ t _ => t
  | .funTypeE _ t _ _ => t
  | .varE _ t _ _ _ => t

/-- Writing the `type` slot (the `node.type = t` assignment in `typecheck`). -/
def Expression.withTy (t : Ty) : Expression → Expression
  | .literal l _ v => .literal l t v
  | .identifier l _ n => .identifier l t n
  | .unaryOp l _ o x => .unaryOp l t o x
  | .binaryOp l _ a o b => .binaryOp l t a o b
  | .ifThenElse l _ c th el => .ifThenElse l t c th el
  | .whileE l _ c b => .whileE l t c b
  | .functionExpr l _ f args => .functionExpr l t f args
  | .blockE l _ ss => .blockE l t ss
  | .funTypeE l _ r p => .funTypeE l t r p
  | .varE l _ n i ta => .varE l t n i ta

/-! ## Parser (`parser.py`)

The token cursor `pos` is threaded explicitly; each function returns the parsed
node together with the new cursor.  The mutual recursion is driven by a fuel
parameter; `parse` hands out `20 * tokens.length + 100` units, far more than
the Python recursion ever consumes (each nesting level of the grammar costs a
bounded number of calls per consumed token). -/

/-- Python's `str()` of a `Location` dataclass, as used in parser error
messages. -/
def locStr (l : Location) : String :=
  "Location(line=" ++ toString l.line ++ ", column=" ++ toString l.column ++ ")"

/-- `peek()`: the token at `pos`, or a synthesized `end` token carrying the
location of the last real token. -/
def peekTok (tokens : List Token) (pos : Nat) : Token :=
  match tokens[pos]? with
  | some t => t
  | none => ⟨"", .endTok, ((tokens.getLast?).map Token.loc).getD ⟨0, 0⟩⟩

/-- `consume()` without an `expected` argument. -/
def consumeAny (tokens : List Token) (pos : Nat) : Token × Nat :=
  (peekTok tokens pos, pos + 1)

/-- `consume(expected)` with a string argument. -/
def consumeExpected (tokens : List Token) (pos : Nat) (expected : String) :
    Except String (Token × Nat) :=
  let token := peekTok tokens pos
  if token.text = expected then .ok (token, pos + 1)
  else .error (locStr token.loc ++ ": expected \"" ++ expected ++ "\"")

/-- `left_associative_binary_operators` from `parser.py`. -/
def opsLevels : List (List String) :=
  [["or"], ["and"], ["==", "!="], ["<", "<=", ">", ">="], ["+", "-"],
   ["*", "/", "%"]]

/-- The error raised by `parse_expression_no_var` (a constant string in the
source). -/
def noVarMsg : String :=
  "unexpected token var, var is only allowed directly inside blocks \x7b\x7d and in top-level expressions"

mutual

/-- `parse_int_literal`. -/
def parseIntLiteral : Nat → List Token → Nat → Except String (Expression × Nat)
  | 0, _, _ => .error "out of fuel"
  | _ + 1, tokens, pos =>
    if (peekTok tokens pos).ttype = .int_literal then
      let (token, pos) := consumeAny tokens pos
      .ok (.literal token.loc .unit (.intV ((token.text.toInt?).getD 0)), pos)
    else
      .error (locStr (peekTok tokens pos).loc ++ ": expected an integer literal")

/-- `parse_identifier`. -/
def parseIdentifier : Nat → List Token → Nat → Except String (Expression × Nat)
  | 0, _, _ => .error "out of fuel"
  | _ + 1, tokens, pos =>
    if (peekTok tokens pos).ttype = .identifier then
      let (token, pos) := consumeAny tokens pos
      .ok (.identifier token.loc .unit token.text, pos)
    else
      .error (locStr (peekTok tokens pos).loc ++ ": expected an identifier")

/-- `parse_parenthesized`: `(` is followed by a full `parse_assignment` (not
the no-`var` wrapper). -/
def parseParenthesized : Nat → List Token → Nat → Except String (Expression × Nat)
  | 0, _, _ => .error "out of fuel"
  | fuel + 1, tokens, pos => do
    let (_, pos) ← consumeExpected tokens pos "("
    let (expr, pos) ← parseAssignment fuel tokens pos
    let (_, pos) ← consumeExpected tokens pos ")"
    .ok (expr, pos)
termination_by structural fuel _ _ => fuel

/-- `parse_factor`. -/
def parseFactor : Nat → List Token → Nat → Except String (Expression × Nat)
  | 0, _, _ => .error "out of fuel"
  | fuel + 1, tokens, pos =>
    if (peekTok tokens pos).text = "(" then
      parseParenthesized fuel tokens pos
    else if (peekTok tokens pos).text = "\x7b" then
      parseBlock fuel tokens pos
    else if (peekTok tokens pos).ttype = .int_literal then
      parseIntLiteral fuel tokens pos
    else if (peekTok tokens pos).ttype = .identifier then do
      let (ident, pos) ← parseIdentifier fuel tokens pos
      if (peekTok tokens pos).text = "(" then
        parseFunctionCall fuel tokens pos ident
      else
        .ok (ident, pos)
    else
      .error (locStr (peekTok tokens pos).loc ++
        ": expected \"(\", an integer literal or an identifier")
termination_by structural fuel _ _ => fuel

/-- `parse_if_expression`. -/
def parseIf : Nat → List Token → Nat → Except String (Expression × Nat)
  | 0, _, _ => .error "out of fuel"
  | fuel + 1, tokens, pos => do
    let (token_if, pos) ← consumeExpected tokens pos "if"
    let (condition, pos) ← parseNoVar fuel tokens pos
    let (_, pos) ← consumeExpected tokens pos "then"
    let (then_branch, pos) ← parseNoVar fuel tokens pos
    if (peekTok tokens pos).text = "else" then do
      let (_, pos) := consumeAny tokens pos
      let (else_branch, pos) ← parseNoVar fuel tokens pos
      .ok (.ifThenElse token_if.loc .unit condition then_branch (some else_branch),
        pos)
    else
      .ok (.ifThenElse token_if.loc .unit condition then_branch none, pos)
termination_by structural fuel _ _ => fuel

/-- `parse_while_expression`. -/
def parseWhile : Nat → List Token → Nat → Except String (Expression × Nat)
  | 0, _, _ => .error "out of fuel"
  | fuel + 1, tokens, pos => do
    let (token_while, pos) ← consumeExpected tokens pos "while"
    let (condition, pos) ← parseNoVar fuel tokens pos
    let (_, pos) ← consumeExpected tokens pos "do"
    let (body, pos) ← parseNoVar fuel tokens pos
    .ok (.whileE token_while.loc .unit condition body, pos)
termination_by structural fuel _ _ => fuel

/-- `parse_function`: the call node carries the location of the `(` token. -/
def parseFunctionCall : Nat → List Token → Nat → Expression →
    Except String (Expression × Nat)
  | 0, _, _, _ => .error "out of fuel"
  | fuel + 1, tokens, pos, function_name => do
    let (token_func, pos) ← consumeExpected tokens pos "("
    if (peekTok tokens pos).text = ")" then do
      let (_, pos) ← consumeExpected tokens pos ")"
      .ok (.functionExpr token_func.loc .unit function_name [], pos)
    else do
      let (arguments, pos) ← parseCallArgs fuel tokens pos []
      let (_, pos) ← consumeExpected tokens pos ")"
      .ok (.functionExpr token_func.loc .unit function_name arguments, pos)
termination_by structural fuel _ _ _ => fuel

/-- The argument loop inside `parse_function`. -/
def parseCallArgs : Nat → List Token → Nat → List Expression →
    Except String (List Expression × Nat)
  | 0, _, _, _ => .error "out of fuel"
  | fuel + 1, tokens, pos, acc => do
    let (arg, pos) ← parseNoVar fuel tokens pos
    let acc := acc ++ [arg]
    if (peekTok tokens pos).text = "," then
      let (_, pos) := consumeAny tokens pos
      parseCallArgs fuel tokens pos acc
    else
      .ok (acc, pos)
termination_by structural fuel _ _ _ => fuel

/-- `parse_block`.  Note: no synthetic `Identifier("Unit")` is ever appended;
the statement list is exactly the parsed statements. -/
def parseBlock : Nat → List Token → Nat → Except String (Expression × Nat)
  | 0, _, _ => .error "out of fuel"
  | fuel + 1, tokens, pos => do
    let (token_block, pos) ← consumeExpected tokens pos "\x7b"
    let (statements, pos) ← parseBlockStmts fuel tokens pos []
    let (_, pos) ← consumeExpected tokens pos "\x7d"
    .ok (.blockE token_block.loc .unit statements, pos)
termination_by structural fuel _ _ => fuel

/-- The statement loop inside `parse_block`: a bare identifier or literal must
be followed by `}` or `;`. -/
def parseBlockStmts : Nat → List Token → Nat → List Expression →
    Except String (List Expression × Nat)
  | 0, _, _, _ => .error "out of fuel"
  | fuel + 1, tokens, pos, acc =>
    if (peekTok tokens pos).text = "\x7d" then
      .ok (acc, pos)
    else do
      let (arg, pos) ← parseAssignment fuel tokens pos
      let bare := match arg with
        | .identifier _ _ _ => true
        | .literal _ _ _ => true
        | _ => false
      if bare && !((peekTok tokens pos).text = "\x7d" ||
          (peekTok tokens pos).text = ";") then
        .error "expected token \"\x7d\" or \";\""
      else
        let acc := acc ++ [arg]
        if (peekTok tokens pos).text = ";" then
          let (_, pos) := consumeAny tokens pos
          parseBlockStmts fuel tokens pos acc
        else
          parseBlockStmts fuel tokens pos acc
termination_by structural fuel _ _ _ => fuel

/-- `parse_var_expression`.  The declared name is the result of
`parse_factor()` — an AST node, not a string — and the two arguments of
`ast.FunctionTypeExpr(loc, param_types, return_type)` land in the fields
`return_type` and `param_types` respectively (positional call against the
field order `return_type, param_types`). -/
def parseVar : Nat → List Token → Nat → Except String (Expression × Nat)
  | 0, _, _ => .error "out of fuel"
  | fuel + 1, tokens, pos => do
    let (token_var, pos) ← consumeExpected tokens pos "var"
    let (nameNode, pos) ← parseFactor fuel tokens pos
    let (typed, pos) ←
      if (peekTok tokens pos).text = ":" then do
        let (_, pos) := consumeAny tokens pos
        if (peekTok tokens pos).text = "(" then do
          let (_, pos) := consumeAny tokens pos
          let (param_types, pos) ← parseVarParams fuel tokens pos []
          let (_, pos) ← consumeExpected tokens pos ")"
          let (_, pos) ← consumeExpected tokens pos "="
          let (_, pos) ← consumeExpected tokens pos ">"
          let (return_type, pos) ← parseFactor fuel tokens pos
          pure (some (Expression.funTypeE token_var.loc .unit
            (.many param_types) (.one return_type)), pos)
        else do
          let (t, pos) ← parseFactor fuel tokens pos
          pure (some t, pos)
      else
        pure (none, pos)
    let (_, pos) ← consumeExpected tokens pos "="
    let (initializer, pos) ← parseAssignment fuel tokens pos
    .ok (.varE token_var.loc .unit (.exprName nameNode) initializer typed, pos)
termination_by structural fuel _ _ => fuel

/-- The parameter-type loop inside `parse_var_expression` (runs at least
once). -/
def parseVarParams : Nat → List Token → Nat → List Expression →
    Except String (List Expression × Nat)
  | 0, _, _, _ => .error "out of fuel"
  | fuel + 1, tokens, pos, acc => do
    let (param_type, pos) ← parseFactor fuel tokens pos
    let acc := acc ++ [param_type]
    if (peekTok tokens pos).text = "," then
      let (_, pos) := consumeAny tokens pos
      parseVarParams fuel tokens pos acc
    else
      .ok (acc, pos)
termination_by structural fuel _ _ _ => fuel

/-- `parse_unary_expression`: consumes the operator token unconditionally;
the operand is a unary expression or a bare factor. -/
def parseUnary : Nat → List Token → Nat → Except String (Expression × Nat)
  | 0, _, _ => .error "out of fuel"
  | fuel + 1, tokens, pos => do
    let (token_op, pos) := consumeAny tokens pos
    if (peekTok tokens pos).text = "not" || (peekTok tokens pos).text = "-" then do
      let (operand, pos) ← parseUnary fuel tokens pos
      .ok (.unaryOp token_op.loc .unit token_op.text operand, pos)
    else do
      let (operand, pos) ← parseFactor fuel tokens pos
      .ok (.unaryOp token_op.loc .unit token_op.text operand, pos)
termination_by structural fuel _ _ => fuel

/-- `parse_expression_no_var`: rejects a leading `var`, otherwise defers to
`parse_assignment`. -/
def parseNoVar : Nat → List Token → Nat → Except String (Expression × Nat)
  | 0, _, _ => .error "out of fuel"
  | fuel + 1, tokens, pos =>
    if (peekTok tokens pos).text = "var" then
      .error noVarMsg
    else
      parseAssignment fuel tokens pos
termination_by structural fuel _ _ => fuel

/-- The `parse_base` closure produced by `make_binary_parser` at the level past
the precedence table. -/
def parseBase : Nat → List Token → Nat → Except String (Expression × Nat)
  | 0, _, _ => .error "out of fuel"
  | fuel + 1, tokens, pos =>
    if (peekTok tokens pos).text = "if" then
      parseIf fuel tokens pos
    else if (peekTok tokens pos).text = "while" then
      parseWhile fuel tokens pos
    else if (peekTok tokens pos).text = "var" then
      parseVar fuel tokens pos
    else if (peekTok tokens pos).text = "not" || (peekTok tokens pos).text = "-" then
      parseUnary fuel tokens pos
    else
      parseFactor fuel tokens pos
termination_by structural fuel _ _ => fuel

/-- The `parse_level` closure produced by `make_binary_parser` for one
precedence level. -/
def parseLevel : Nat → List Token → Nat → Nat → Except String (Expression × Nat)
  | 0, _, _, _ => .error "out of fuel"
  | fuel + 1, tokens, level, pos =>
    if level ≥ opsLevels.length then
      parseBase fuel tokens pos
    else do
      let (left, pos) ← parseLevel fuel tokens (level + 1) pos
      parseLevelLoop fuel tokens level left pos
termination_by structural fuel _ _ _ => fuel

/-- The left-folding operator loop of one precedence level. -/
def parseLevelLoop : Nat → List Token → Nat → Expression → Nat →
    Except String (Expression × Nat)
  | 0, _, _, _, _ => .error "out of fuel"
  | fuel + 1, tokens, level, left, pos =>
    if ((opsLevels.getD level []).contains (peekTok tokens pos).text) then do
      let (token_op, pos) := consumeAny tokens pos
      let (right, pos) ← parseLevel fuel tokens (level + 1) pos
      parseLevelLoop fuel tokens level
        (.binaryOp token_op.loc .unit left token_op.text right) pos
    else
      .ok (left, pos)
termination_by structural fuel _ _ _ _ => fuel

/-- `parse_assignment`: `=` is right-associative and sits above the precedence
table. -/
def parseAssignment : Nat → List Token → Nat → Except String (Expression × Nat)
  | 0, _, _ => .error "out of fuel"
  | fuel + 1, tokens, pos => do
    let (left, pos) ← parseLevel fuel tokens 0 pos
    if (peekTok tokens pos).text = "=" then do
      let (token, pos) := consumeAny tokens pos
      let (right, pos) ← parseAssignment fuel tokens pos
      .ok (.binaryOp token.loc .unit left "=" right, pos)
    else
      .ok (left, pos)
termination_by structural fuel _ _ => fuel

/-- The top-level statement loop of `parse`. -/
def parseStatements : Nat → List Token → Nat → List Expression →
    Except String Expression
  | 0, _, _, _ => .error "out of fuel"
  | fuel + 1, tokens, pos, acc =>
    if (peekTok tokens pos).ttype = .endTok then
      match acc with
      | [stmt] => .ok stmt
      | stmt :: _ => .ok (.blockE stmt.loc .unit acc)
      | [] => .error "Empty input: expected an expression"
    else do
      let (stmt, pos) ← parseAssignment fuel tokens pos
      let acc := acc ++ [stmt]
      if (peekTok tokens pos).text = ";" then
        let (_, pos) := consumeAny tokens pos
        parseStatements fuel tokens pos acc
      else if (peekTok tokens pos).ttype ≠ .endTok then
        .error (locStr (peekTok tokens pos).loc ++ ": unexpected token \"" ++
          (peekTok tokens pos).text ++ "\" after complete expression")
      else
        parseStatements fuel tokens pos acc

termination_by structural fuel _ _ _ => fuel
end

/-- `parse` from `parser.py`. -/
def parse (tokens : List Token) : Except String Expression :=
  if tokens.isEmpty then
    .error "Empty input: expected an expression"
  else
    parseStatements (20 * tokens.length + 100) tokens 0 []

/-! ## Type checker (`type_checker.py`)

A `SymTab` chain becomes a list of frames, innermost first.  The checker only
ever writes the innermost frame (`define`), so each function returns the
updated frame list; a block pushes a fresh frame and drops it afterwards.

The Python `typecheck` wrapper writes the computed type into the node's `type`
slot; here every case returns the node rebuilt with its `ty` field set and its
children replaced by their annotated versions (the in-place mutations of the
original). -/

/-- Frames of a name-to-value symbol table, innermost first. -/
abbrev Frames (α : Type) := List (List (String × α))

def lookupFrame (frame : List (String × α)) (name : String) : Option α :=
  (frame.find? (fun p => p.1 = name)).map (·.2)

def lookupFrames : Frames α → String → Option α
  | [], _ => none
  | f :: rest, name =>
    match lookupFrame f name with
    | some v => some v
    | none => lookupFrames rest name

/-- Python dict assignment: replace the binding if present, else append. -/
def updateAssoc : List (String × α) → String → α → List (String × α)
  | [], name, v => [(name, v)]
  | (k, w) :: rest, name, v =>
    if k = name then (k, v) :: rest else (k, w) :: updateAssoc rest name v

/-- `define` / `add_local`: installs into the innermost frame. -/
def defineVar : Frames α → String → α → Frames α
  | [], name, v => [[(name, v)]]
  | f :: rest, name, v => updateAssoc f name v :: rest

/-- `SymTab.lookup`: walks parents; raises on a missing name. -/
def tcLookup (env : Frames Ty) (name : String) : Except String Ty :=
  match lookupFrames env name with
  | some t => .ok t
  | none => .error ("Undefined identifier \x27" ++ name ++ "\x27")

/-- `setup_type_env` from `type_checker.py`: the global frame. -/
def setup_type_env : Frames Ty :=
  [[("+", .funT [.int, .int] .int),
    ("-", .funT [.int, .int] .int),
    ("*", .funT [.int, .int] .int),
    ("/", .funT [.int, .int] .int),
    ("%", .funT [.int, .int] .int),
    ("<", .funT [.int, .int] .bool),
    ("<=", .funT [.int, .int] .bool),
    (">", .funT [.int, .int] .bool),
    (">=", .funT [.int, .int] .bool),
    ("and", .funT [.bool, .bool] .bool),
    ("or", .funT [.bool, .bool] .bool),
    ("unary_-", .funT [.int] .int),
    ("unary_not", .funT [.bool] .bool),
    ("print_int", .funT [.int] .unit),
    ("print_bool", .funT [.bool] .unit),
    ("read_int", .funT [] .int),
    ("true", .bool),
    ("false", .bool),
    ("Int", .int),
    ("Bool", .bool),
    ("Unit", .unit)]]

mutual

/-- Python `str()` of a type value, as interpolated into checker error
messages (`IntType()`, `FunType(params=(IntType(),), return_type=...)`). -/
def pyTyStr : Ty → String
  | .int => "IntType()"
  | .bool => "BoolType()"
  | .unit => "UnitType()"
  | .funT ps r =>
    "FunType(params=" ++ pyTupleStr ps ++ ", return_type=" ++ pyTyStr r ++ ")"

/-- Python `repr` of a tuple of types (note the singleton trailing comma). -/
def pyTupleStr : List Ty → String
  | [] => "()"
  | [p] => "(" ++ pyTyStr p ++ ",)"
  | p :: rest => "(" ++ pyTyStr p ++ ", " ++ pyTyStrSep rest ++ ")"

def pyTyStrSep : List Ty → String
  | [] => ""
  | [p] => pyTyStr p
  | p :: rest => pyTyStr p ++ ", " ++ pyTyStrSep rest

end

mutual

/-- `typecheck` / `typecheck_helper` from `type_checker.py`, merged: the
result type, the annotated node, and the updated frames.  The mutual
recursion is structural on a fuel parameter; the `typecheck` wrapper below
supplies `sizeOf node + 1` units, which always suffices because every
recursive call passes a strict subterm. -/
def typecheckF : Nat → Expression → Frames Ty →
    Except String (Ty × Expression × Frames Ty)
  | 0, _, _ => .error "out of fuel"
  | _ + 1, .literal loc _ v, env =>
    match v with
    | .boolV b => .ok (.bool, .literal loc .bool (.boolV b), env)
    | .intV i => .ok (.int, .literal loc .int (.intV i), env)
    | .noneV => .error "Unsupported literal: None"
  | _ + 1, .identifier loc _ name, env => do
    let t ← tcLookup env name
    .ok (t, .identifier loc t name, env)
  | fuel + 1, .unaryOp loc _ op x, env => do
    let op_type ← tcLookup env ("unary_" ++ op)
    match op_type with
    | .funT ps r => do
      let (operand_type, x', env') ← typecheckF fuel x env
      match ps with
      | [] => .error "IndexError: tuple index out of range"
      | expected :: _ =>
        if expected = operand_type then
          .ok (r, .unaryOp loc r op x', env')
        else
          .error ("Unary operator \x27" ++ op ++ "\x27 expects operand of type "
            ++ pyTyStr expected ++ ", got " ++ pyTyStr operand_type)
    | _ => .error ("\x27" ++ op ++ "\x27 is not a unary operator")
  | fuel + 1, .binaryOp loc _ left op right, env =>
    if op = "=" then do
      let (var, left', env1) ← typecheckF fuel left env
      let (value_type, right', env2) ← typecheckF fuel right env1
      if var = value_type then
        .ok (value_type, .binaryOp loc value_type left' op right', env2)
      else
        .error ("Assignment expects value of type " ++ pyTyStr var ++ ", got "
          ++ pyTyStr value_type)
    else if op = "==" || op = "!=" then do
      let (t1, left', env1) ← typecheckF fuel left env
      let (t2, right', env2) ← typecheckF fuel right env1
      if t1 = t2 then
        .ok (.bool, .binaryOp loc .bool left' op right', env2)
      else
        .error ("Operands of \x27" ++ op ++ "\x27 must have the same type, got "
          ++ pyTyStr t1 ++ " and " ++ pyTyStr t2)
    else do
      let op_type ← tcLookup env op
      match op_type with
      | .funT ps r => do
        let (t1, left', env1) ← typecheckF fuel left env
        let (t2, right', env2) ← typecheckF fuel right env1
        if ps = [t1, t2] then
          .ok (r, .binaryOp loc r left' op right', env2)
        else
          .error ("Operator \x27" ++ op ++ "\x27 expects operands of type "
            ++ pyTupleStr ps ++ ", got " ++ pyTyStr t1 ++ " and " ++ pyTyStr t2)
      | _ => .error ("\x27" ++ op ++ "\x27 is not a binary operator")
  | fuel + 1, .ifThenElse loc _ condition then_branch else_branch, env => do
    let (cond_type, cond', env1) ← typecheckF fuel condition env
    if cond_type = .bool then
      match else_branch with
      | none => do
        let (then_type, then', env2) ← typecheckF fuel then_branch env1
        .ok (then_type, .ifThenElse loc then_type cond' then' none, env2)
      | some eb => do
        let (then_type, then', env2) ← typecheckF fuel then_branch env1
        let (else_type, else', env3) ← typecheckF fuel eb env2
        if then_type = else_type then
          .ok (then_type, .ifThenElse loc then_type cond' then' (some else'),
            env3)
        else
          .error ("Then and else branches must have the same type, got "
            ++ pyTyStr then_type ++ " and " ++ pyTyStr else_type)
    else
      .error "Condition of if-then-else must be of type Bool"
  | fuel + 1, .whileE loc _ condition body, env => do
    let (cond_type, cond', env1) ← typecheckF fuel condition env
    if cond_type = .bool then do
      let (_, body', env2) ← typecheckF fuel body env1
      .ok (.unit, .whileE loc .unit cond' body', env2)
    else
      .error "Condition of while must be of type Bool"
  | fuel + 1, .functionExpr loc _ function_name arguments, env =>
    if arguments.length > 6 then
      .error "Functions with more than 6 arguments are not supported"
    else
      match function_name with
      | .identifier floc fty fname => do
        let func_type ← tcLookup env fname
        match func_type with
        | .funT ps r => do
          let (checked, env') ← tcCallArgs fuel fname arguments ps env
          .ok (r, .functionExpr loc r (.identifier floc fty fname)
            (checked ++ arguments.drop checked.length), env')
        | _ => .error ("\x27" ++ fname ++ "\x27 is not a function")
      | _ => .error "AssertionError"
  | fuel + 1, .blockE loc _ statements, env => do
    let (last_type, statements', envAfter) ←
      tcStmts fuel statements .unit ([] :: env)
    .ok (last_type, .blockE loc last_type statements', envAfter.tail)
  | fuel + 1, .funTypeE loc _ return_type param_types, env => do
    let (ps, param_types', env1) ←
      match param_types with
      | .noneF => pure (([] : List Ty), FTField.noneF, env)
      | .one _ => .error "TypeError: object has no len()"
      | .many es =>
        if es.length > 6 then
          .error "Functions with more than 6 parameters are not supported"
        else do
          let (ts, es', env1) ← tcTyList fuel es env
          pure (ts, FTField.many es', env1)
    match return_type with
    | .one e => do
      let (rt, e', env2) ← typecheckF fuel e env1
      .ok (.funT ps rt, .funTypeE loc (.funT ps rt) (.one e') param_types', env2)
    | .noneF => .error "Unknown AST node: None"
    | .many _ => .error "Unknown AST node: list"
  | fuel + 1, .varE loc _ name initializer typed, env =>
    match name with
    | .exprName _ => .error "AssertionError"
    | .str nm => do
      let (init_type, init', env1) ← typecheckF fuel initializer env
      match typed with
      | some tnode => do
        let (typed_type, tnode', env2) ← typecheckF fuel tnode env1
        if init_type = typed_type then
          .ok (.unit, .varE loc .unit (.str nm) init' (some tnode'),
            defineVar env2 nm init_type)
        else
          .error ("Variable \x27" ++ nm ++ "\x27 declared as type "
            ++ pyTyStr typed_type ++ ", but initialized with type "
            ++ pyTyStr init_type)
      | none =>
        .ok (.unit, .varE loc .unit (.str nm) init' none,
          defineVar env1 nm init_type)
termination_by structural fuel _ _ => fuel

/-- The `zip(node.arguments, func_type.params)` loop of the `FunctionExpr`
case: only the first `min` positions are checked, in order, stopping at the
first mismatch; returns the annotated prefix. -/
def tcCallArgs : Nat → String → List Expression → List Ty → Frames Ty →
    Except String (List Expression × Frames Ty)
  | 0, _, _, _, _ => .error "out of fuel"
  | _ + 1, _, [], _, env => .ok ([], env)
  | _ + 1, _, _, [], env => .ok ([], env)
  | fuel + 1, fname, a :: as_, p :: ps, env => do
    let (arg_type, a', env') ← typecheckF fuel a env
    if arg_type = p then do
      let (rest, env'') ← tcCallArgs fuel fname as_ ps env'
      .ok (a' :: rest, env'')
    else
      .error ("Function \x27" ++ fname ++ "\x27 expects argument of type "
        ++ pyTyStr p ++ ", got " ++ pyTyStr arg_type)
termination_by structural fuel _ _ _ _ => fuel

/-- The statement loop of the `BlockExpr` case (`last_type` starts at
`Unit`). -/
def tcStmts : Nat → List Expression → Ty → Frames Ty →
    Except String (Ty × List Expression × Frames Ty)
  | 0, _, _, _ => .error "out of fuel"
  | _ + 1, [], last, env => .ok (last, [], env)
  | fuel + 1, s :: rest, _, env => do
    let (t, s', env') ← typecheckF fuel s env
    let (tl, rest', env'') ← tcStmts fuel rest t env'
    .ok (tl, s' :: rest', env'')
termination_by structural fuel _ _ _ => fuel

/-- The parameter-type loop of the `FunctionTypeExpr` case. -/
def tcTyList : Nat → List Expression → Frames Ty →
    Except String (List Ty × List Expression × Frames Ty)
  | 0, _, _ => .error "out of fuel"
  | _ + 1, [], env => .ok ([], [], env)
  | fuel + 1, e :: rest, env => do
    let (t, e', env') ← typecheckF fuel e env
    let (ts, rest', env'') ← tcTyList fuel rest env'
    .ok (t :: ts, e' :: rest', env'')
termination_by structural fuel _ _ => fuel

end

mutual

/-- A computable size measure on expressions, used only to hand the fueled
checker enough fuel. -/
def exprSize : Expression → Nat
  | .literal _ _ _ => 1
  | .identifier _ _ _ => 1
  | .unaryOp _ _ _ x => 1 + exprSize x
  | .binaryOp _ _ a _ b => 1 + exprSize a + exprSize b
  | .ifThenElse _ _ c t e => 1 + exprSize c + exprSize t + exprSizeOpt e
  | .whileE _ _ c b => 1 + exprSize c + exprSize b
  | .functionExpr _ _ f args => 1 + exprSize f + exprSizeList args
  | .blockE _ _ ss => 1 + exprSizeList ss
  | .funTypeE _ _ r p => 1 + ftFieldSize r + ftFieldSize p
  | .varE _ _ n i t => 1 + varNameSize n + exprSize i + exprSizeOpt t

def exprSizeList : List Expression → Nat
  | [] => 0
  | e :: rest => 1 + exprSize e + exprSizeList rest

def exprSizeOpt : Option Expression → Nat
  | none => 0
  | some e => 1 + exprSize e

def varNameSize : VarName → Nat
  | .str _ => 1
  | .exprName e => 1 + exprSize e

def ftFieldSize : FTField → Nat
  | .noneF => 0
  | .one e => 1 + exprSize e
  | .many es => 1 + exprSizeList es

end

/-- `typecheck` from `type_checker.py`: runs the fueled checker with enough
fuel for the whole tree (recursion depth is bounded by the node's size). -/
def typecheck (node : Expression) (env : Frames Ty) :
    Except String (Ty × Expression × Frames Ty) :=
  typecheckF (exprSize node + 1) node env

/-! ## IR (`compiler/ir.py`)

Modelled from the spec: the module `compiler.ir` itself is not among the
provided sources (only its importers are), so the dataclasses below follow the
spec's §3 "IR instruction" closed tag set, with the field order fixed by the
positional constructor calls in `ir_generator.py` (`ir.LoadIntConst(loc,
value, var)` etc.) and the field names fixed by the attribute accesses in
`assembly_generator.py` (`insn.value`, `insn.dest`, `insn.source`, `insn.fun`,
`insn.args`, `insn.cond`, `insn.then_label`, `insn.else_label`, `insn.label`,
`insn.name`).  `IRVar` is a one-field dataclass with structural equality and
hashability (it is used as a `set` member and `dict` key in
`assembly_generator.py`). -/

/-- An IR variable: an opaque name (structural equality and hashability, as
required by its use as a `set` member and `dict` key). -/
structure IRVar where
  name : String
deriving DecidableEq

/-- An IR label: a jump target carrying the location it was created from. -/
structure Label where
  loc : Location
  name : String
deriving DecidableEq

/-- The IR instruction set (a `Label` value is itself appended to the
instruction list to mark a position, hence the `labelIns` case). -/
inductive Instruction where
  | loadIntConst (loc : Location) (value : Int) (dest : IRVar)
  | loadBoolConst (loc : Location) (value : Bool) (dest : IRVar)
  | copy (loc : Location) (source : IRVar) (dest : IRVar)
  | call (loc : Location) (fun_ : IRVar) (args : List IRVar) (dest : IRVar)
  | jump (loc : Location) (label : Label)
  | condJump (loc : Location) (cond : IRVar) (then_label : Label)
      (else_label : Label)
  | labelIns (lab : Label)
deriving DecidableEq

/-! ## IR generator (`ir_generator.py`) -/

/-- The module-level `reserved_names` set of `ir_generator.py`. -/
def reserved_names : List String :=
  ["+", "-", "*", "/", "%",
   "<", "<=", ">", ">=",
   "==", "!=", "=",
   "and", "or",
   "unary_-",
   "unary_not",
   "print_int",
   "print_bool",
   "read_int",
   "true", "false",
   "Int", "Bool", "Unit"]

/-- The singleton `unit` IR variable (`var_unit` in `generate_ir`). -/
def var_unit : IRVar := ⟨"unit"⟩

/-- The mutable state closed over by `generate_ir`'s helpers: the variable
counter, the (never incremented) label counter, the `lable` list of label
names handed out so far, and the growing instruction list. -/
structure GenState where
  var_counter : Nat
  lable_counter : Nat
  lable : List String
  ins : List Instruction
deriving DecidableEq

/-- `new_var`: `x`, `x2`, `x3`, … -/
def new_var (s : GenState) : IRVar × GenState :=
  let var_name := if s.var_counter = 1 then "x" else "x" ++ toString s.var_counter
  (⟨var_name⟩, { s with var_counter := s.var_counter + 1 })

/-- `new_label`: reuses a base name on first request; on a re-request appends
`lable_counter + 1` — but `lable_counter` is never incremented, so every
re-request of the same base yields the same `base2` name.  The chosen name is
appended to `lable` either way. -/
def new_label (loc : Location) (base_name : String) (s : GenState) :
    Label × GenState :=
  let label_name :=
    if s.lable.contains base_name then base_name ++ toString (s.lable_counter + 1)
    else base_name
  (⟨loc, label_name⟩, { s with lable := s.lable ++ [label_name] })

/-- `ins.append(...)`. -/
def emit (i : Instruction) (s : GenState) : GenState :=
  { s with ins := s.ins ++ [i] }

/-- `SymTab.require` of `ir_generator.py` (raises `KeyError` on a missing
name). -/
def irRequire (st : Frames IRVar) (name : String) : Except String IRVar :=
  match lookupFrames st name with
  | some v => .ok v
  | none => .error ("Undefined identifier \x27" ++ name ++ "\x27")

mutual

/-- The `visit` closure of `generate_ir`: returns the IR variable holding the
expression's result, together with the updated frames and state. -/
def visit : Frames IRVar → Expression → GenState →
    Except String (IRVar × Frames IRVar × GenState)
  | st, .literal loc _ value, s =>
    match value with
    | .boolV b =>
      let (var, s) := new_var s
      .ok (var, st, emit (.loadBoolConst loc b var) s)
    | .intV i =>
      let (var, s) := new_var s
      .ok (var, st, emit (.loadIntConst loc i var) s)
    | .noneV => .ok (var_unit, st, s)
  | st, .identifier loc _ name, s =>
    if name = "true" then
      let (var, s) := new_var s
      .ok (var, st, emit (.loadBoolConst loc true var) s)
    else if name = "false" then
      let (var, s) := new_var s
      .ok (var, st, emit (.loadBoolConst loc false var) s)
    else do
      let v ← irRequire st name
      .ok (v, st, s)
  | st, .unaryOp loc _ op operand, s => do
    let var_op ← irRequire st ("unary_" ++ op)
    let (var_operand, st1, s1) ← visit st operand s
    let (var_result, s2) := new_var s1
    .ok (var_result, st1, emit (.call loc var_op [var_operand] var_result) s2)
  | st, .binaryOp loc _ left op right, s =>
    if op = "=" then do
      let (var_left, st1, s1) ← visit st left s
      let (var_right, st2, s2) ← visit st1 right s1
      .ok (var_left, st2, emit (.copy loc var_right var_left) s2)
    else if op = "or" then do
      let (l_right, s1) := new_label right.loc "or_right" s
      let (l_end, s2) := new_label right.loc "or_end" s1
      let (l_skip, s3) := new_label right.loc "or_skip" s2
      let (var_left, st1, s4) ← visit st left s3
      let s5 := emit (.labelIns l_right) (emit (.condJump loc var_left l_skip l_right) s4)
      let (var_right, st2, s6) ← visit st1 right s5
      let (var_result, s7) := new_var s6
      let s8 := emit (.jump loc l_end) (emit (.copy loc var_right var_result) s7)
      let s9 := emit (.loadBoolConst loc true var_result) (emit (.labelIns l_skip) s8)
      let s10 := emit (.labelIns l_end) (emit (.jump loc l_end) s9)
      .ok (var_result, st2, s10)
    else if op = "and" then do
      let (l_right, s1) := new_label right.loc "and_right" s
      let (l_end, s2) := new_label right.loc "and_end" s1
      let (l_skip, s3) := new_label right.loc "and_skip" s2
      let (var_left, st1, s4) ← visit st left s3
      let s5 := emit (.labelIns l_right) (emit (.condJump loc var_left l_right l_skip) s4)
      let (var_right, st2, s6) ← visit st1 right s5
      let (var_result, s7) := new_var s6
      let s8 := emit (.jump loc l_end) (emit (.copy loc var_right var_result) s7)
      let s9 := emit (.loadBoolConst loc false var_result) (emit (.labelIns l_skip) s8)
      let s10 := emit (.labelIns l_end) s9
      .ok (var_result, st2, s10)
    else do
      let var_op ← irRequire st op
      let (var_left, st1, s1) ← visit st left s
      let (var_right, st2, s2) ← visit st1 right s1
      let (var_result, s3) := new_var s2
      .ok (var_result, st2,
        emit (.call loc var_op [var_left, var_right] var_result) s3)
  | st, .ifThenElse loc _ condition then_branch else_branch, s =>
    match else_branch with
    | none => do
      let (l_then, s1) := new_label then_branch.loc "then" s
      let (l_end, s2) := new_label loc "if_end" s1
      let (var_cond, st1, s3) ← visit st condition s2
      let s4 := emit (.labelIns l_then) (emit (.condJump loc var_cond l_then l_end) s3)
      let (_, st2, s5) ← visit st1 then_branch s4
      .ok (var_unit, st2, emit (.labelIns l_end) s5)
    | some eb => do
      let (l_then, s1) := new_label then_branch.loc "then" s
      let (l_else, s2) := new_label eb.loc "else" s1
      let (l_end, s3) := new_label loc "if_end" s2
      let (var_cond, st1, s4) ← visit st condition s3
      let s5 := emit (.condJump loc var_cond l_then l_else) s4
      let (var_result, s6) := new_var s5
      let s7 := emit (.labelIns l_then) s6
      let (var_then, st2, s8) ← visit st1 then_branch s7
      let s9 := emit (.jump loc l_end) (emit (.copy loc var_then var_result) s8)
      let s10 := emit (.labelIns l_else) s9
      let (var_else, st3, s11) ← visit st2 eb s10
      let s12 := emit (.copy loc var_else var_result) s11
      .ok (var_result, st3, emit (.labelIns l_end) s12)
  | st, .whileE loc _ condition body, s => do
    let (l_start, s1) := new_label loc "while_start" s
    let s2 := emit (.labelIns l_start) s1
    let (l_body, s3) := new_label body.loc "while_body" s2
    let (l_end, s4) := new_label loc "while_end" s3
    let (var_cond, st1, s5) ← visit st condition s4
    let s6 := emit (.labelIns l_body) (emit (.condJump loc var_cond l_body l_end) s5)
    let (_, st2, s7) ← visit st1 body s6
    .ok (var_unit, st2, emit (.labelIns l_end) (emit (.jump loc l_start) s7))
  | st, .functionExpr loc _ function_name arguments, s => do
    let (var_fun, st1, s1) ← visit st function_name s
    let (var_args, st2, s2) ← visitArgs st1 arguments s1
    let (var_result, s3) := new_var s2
    .ok (var_result, st2, emit (.call loc var_fun var_args var_result) s3)
  | st, .blockE _ ty statements, s => do
    let (last_var, stInner, s') ← visitStmts ([] :: st) statements s
    .ok (if ty = Ty.unit then var_unit else last_var, stInner.tail, s')
  | _, .funTypeE loc _ _ _, _ =>
    .error (locStr loc ++ ": Unsupported expression FunctionTypeExpr")
  | st, .varE loc _ name initializer _, s =>
    match name with
    | .exprName _ => .error "TypeError: unhashable type"
    | .str nm =>
      if (lookupFrame (st.headD []) nm).isSome then
        .error (locStr loc ++ ": Variable \x27" ++ nm ++
          "\x27 is already declared in this scope")
      else do
        let (initializer_var, st1, s1) ← visit st initializer s
        let (var_a, s2) := new_var s1
        let s3 := emit (.copy loc initializer_var var_a) s2
        .ok (var_unit, defineVar st1 nm var_a, s3)

/-- The statement loop of the `BlockExpr` case (`last_var` starts as the unit
variable). -/
def visitStmts : Frames IRVar → List Expression → GenState →
    Except String (IRVar × Frames IRVar × GenState)
  | st, [], s => .ok (var_unit, st, s)
  | st, [e], s => visit st e s
  | st, e :: e2 :: rest, s => do
    let (_, st1, s1) ← visit st e s
    visitStmts st1 (e2 :: rest) s1

/-- The argument loop of the `FunctionExpr` case. -/
def visitArgs : Frames IRVar → List Expression → GenState →
    Except String (List IRVar × Frames IRVar × GenState)
  | st, [], s => .ok ([], st, s)
  | st, e :: rest, s => do
    let (v, st1, s1) ← visit st e s
    let (vs, st2, s2) ← visitArgs st1 rest s1
    .ok (v :: vs, st2, s2)

end

/-- `generate_ir` from `ir_generator.py`. -/
def generate_ir (reserved : List String) (root_expr : Expression) :
    Except String (List Instruction) := do
  let root_symtab : Frames IRVar := [reserved.map (fun n => (n, ⟨n⟩))]
  let (var_final_result, _, s) ← visit root_symtab root_expr ⟨1, 1, [], []⟩
  if root_expr.ty = Ty.int then
    let (d, s2) := new_var s
    .ok (emit (.call root_expr.loc ⟨"print_int"⟩ [var_final_result] d) s2).ins
  else if root_expr.ty = Ty.bool then
    let (d, s2) := new_var s
    .ok (emit (.call root_expr.loc ⟨"print_bool"⟩ [var_final_result] d) s2).ins
  else
    .ok s.ins

/-! ## Assembly generator (`assembly_generator.py`) -/

/-- The flat operator list at the top of `assembly_generator.py`. -/
def asmBinaryOperators : List String :=
  ["or", "and", "==", "!=", "<", "<=", ">", ">=", "+", "-", "*", "/", "%"]

/-- Python `repr` of an `IRVar` dataclass. -/
def pyIRVarRepr (v : IRVar) : String :=
  "IRVar(name=\x27" ++ v.name ++ "\x27)"

/-- Python `repr` of a `Label` dataclass. -/
def pyLabelRepr (l : Label) : String :=
  "Label(loc=" ++ locStr l.loc ++ ", name=\x27" ++ l.name ++ "\x27)"

def pyIRVarListRepr (args : List IRVar) : String :=
  "[" ++ String.intercalate ", " (args.map pyIRVarRepr) ++ "]"

/-- Python `str(insn)` for the per-instruction assembly comments. -/
def instructionRepr : Instruction → String
  | .loadIntConst loc v d =>
    "LoadIntConst(loc=" ++ locStr loc ++ ", value=" ++ toString v ++ ", dest="
      ++ pyIRVarRepr d ++ ")"
  | .loadBoolConst loc b d =>
    "LoadBoolConst(loc=" ++ locStr loc ++ ", value="
      ++ (if b then "True" else "False") ++ ", dest=" ++ pyIRVarRepr d ++ ")"
  | .copy loc s d =>
    "Copy(loc=" ++ locStr loc ++ ", source=" ++ pyIRVarRepr s ++ ", dest="
      ++ pyIRVarRepr d ++ ")"
  | .call loc f args d =>
    "Call(loc=" ++ locStr loc ++ ", fun=" ++ pyIRVarRepr f ++ ", args="
      ++ pyIRVarListRepr args ++ ", dest=" ++ pyIRVarRepr d ++ ")"
  | .jump loc l =>
    "Jump(loc=" ++ locStr loc ++ ", label=" ++ pyLabelRepr l ++ ")"
  | .condJump loc c t e =>
    "CondJump(loc=" ++ locStr loc ++ ", cond=" ++ pyIRVarRepr c
      ++ ", then_label=" ++ pyLabelRepr t ++ ", else_label=" ++ pyLabelRepr e ++ ")"
  | .labelIns l =>
    "Label(loc=" ++ locStr l.loc ++ ", name=\x27" ++ l.name ++ "\x27)"

/-- `Locals`: the stack slot of every IR variable, plus the frame size. -/
structure Locals where
  _var_to_location : List (IRVar × String)
  _stack_used : Nat

/-- A Python dict store keyed by `IRVar`. -/
def updateVarLoc : List (IRVar × String) → IRVar → String → List (IRVar × String)
  | [], v, slot => [(v, slot)]
  | (k, w) :: rest, v, slot =>
    if k = v then (k, slot) :: rest else (k, w) :: updateVarLoc rest v slot

/-- The `enumerate` loop of `Locals.__init__`. -/
def mkVarToLocation : List IRVar → Nat → List (IRVar × String) →
    List (IRVar × String)
  | [], _, acc => acc
  | v :: rest, i, acc =>
    mkVarToLocation rest (i + 1)
      (updateVarLoc acc v ("-" ++ toString ((i + 1) * 8) ++ "(%rbp)"))

/-- `Locals.__init__`. -/
def Locals.init (vs : List IRVar) : Locals :=
  ⟨mkVarToLocation vs 0 [], vs.length * 8⟩

/-- `Locals.get_ref` (a missing variable would be a Python `KeyError`). -/
def Locals.get_ref (l : Locals) (v : IRVar) : String :=
  ((l._var_to_location.find? (fun p => p.1 == v)).map (·.2)).getD "KeyError"

/-- `Locals.stack_used`. -/
def Locals.stack_used (l : Locals) : Nat :=
  l._stack_used

/-- The `add` closure of `get_all_ir_variables`: append on first sight. -/
def addVar (acc : List IRVar) (v : IRVar) : List IRVar :=
  if acc.contains v then acc else acc ++ [v]

/-- The `IRVar`-valued fields of one instruction, in `dataclasses.fields`
order (declaration order), with `list` fields flattened in place; `loc`,
integer/boolean values and `Label`-valued fields contribute nothing. -/
def instructionIRVarFields : Instruction → List IRVar
  | .loadIntConst _ _ d => [d]
  | .loadBoolConst _ _ d => [d]
  | .copy _ s d => [s, d]
  | .call _ f args d => [f] ++ args ++ [d]
  | .jump _ _ => []
  | .condJump _ c _ _ => [c]
  | .labelIns _ => []

/-- `get_all_ir_variables`: every IR variable, in first-appearance order
across every field of every instruction. -/
def get_all_ir_variables (instructions : List Instruction) : List IRVar :=
  instructions.foldl (fun acc insn => (instructionIRVarFields insn).foldl addVar acc) []

/-- The x86-64 System V argument registers used by the `Call` marshalling
loop. -/
def argRegs : List String :=
  ["%rdi", "%rsi", "%rdx", "%rcx", "%r8", "%r9"]

/-- The `set…` instruction chosen for a comparison operator. -/
def setInstruction (op : String) : String :=
  if op = "==" then "sete %al"
  else if op = "!=" then "setne %al"
  else if op = "<" then "setl %al"
  else if op = "<=" then "setle %al"
  else if op = ">" then "setg %al"
  else "setge %al"

/-- The body of the dispatch on the callee name in the `Call` case, between
the marshalling loop and the final store of `%rax`. -/
def callDispatch (locals_ : Locals) (f : IRVar) (args : List IRVar) :
    Except String (List String) :=
  if f.name = "unary_-" then
    match args with
    | a0 :: _ => .ok ["movq " ++ locals_.get_ref a0 ++ ", %rax", "negq %rax"]
    | [] => .error "IndexError: list index out of range"
  else if f.name = "unary_not" then
    match args with
    | a0 :: _ => .ok ["movq " ++ locals_.get_ref a0 ++ ", %rax", "xorq $1, %rax"]
    | [] => .error "IndexError: list index out of range"
  else if f.name = "print_int" then
    match args with
    | a0 :: _ => .ok ["movq " ++ locals_.get_ref a0 ++ ", %rdi", "callq print_int"]
    | [] => .error "IndexError: list index out of range"
  else if f.name = "print_bool" then
    match args with
    | a0 :: _ =>
      .ok ["subq $8, %rsp", "movq " ++ locals_.get_ref a0 ++ ", %rdi",
        "callq print_bool", "addq $8, %rsp"]
    | [] => .error "IndexError: list index out of range"
  else if f.name = "read_int" then
    .ok ["subq $8, %rsp", "callq read_int", "addq $8, %rsp"]
  else if asmBinaryOperators.contains f.name then
    match args with
    | [al, ar] =>
      let left := locals_.get_ref al
      let right := locals_.get_ref ar
      let head := "movq " ++ left ++ ", %rax"
      if f.name = "+" then .ok [head, "addq " ++ right ++ ", %rax"]
      else if f.name = "-" then .ok [head, "subq " ++ right ++ ", %rax"]
      else if f.name = "*" then .ok [head, "imulq " ++ right ++ ", %rax"]
      else if f.name = "/" then .ok [head, "cqto", "idivq " ++ right]
      else if f.name = "%" then
        .ok [head, "cqto", "idivq " ++ right, "movq %rdx, %rax"]
      else if f.name = "and" then .ok [head, "andq " ++ right ++ ", %rax"]
      else if f.name = "or" then .ok [head, "orq " ++ right ++ ", %rax"]
      else
        .ok [head, "cmpq " ++ right ++ ", %rax", setInstruction f.name,
          "movzbq %al, %rax"]
    | _ => .error "AssertionError"
  else
    .ok ["movq " ++ locals_.get_ref f ++ ", %rax", "call *%rax"]

/-- The per-instruction lowering of `generate_assembly` (everything emitted
for one instruction after its `# str(insn)` comment line). -/
def asm_for_instruction (locals_ : Locals) (insn : Instruction) :
    Except String (List String) :=
  match insn with
  | .labelIns l => .ok ["", ".L" ++ l.name ++ ":\n"]
  | .loadIntConst _ v d =>
    if -2 ^ 31 ≤ v ∧ v < 2 ^ 31 then
      .ok ["movq $" ++ toString v ++ ", " ++ locals_.get_ref d ++ " \n"]
    else
      .ok ["movabsq $" ++ toString v ++ ", %rax",
        "movq %rax, " ++ locals_.get_ref d]
  | .loadBoolConst _ b d =>
    .ok ["movq $" ++ (if b then "1" else "0") ++ ", " ++ locals_.get_ref d ++ " \n"]
  | .jump _ l => .ok ["jmp .L" ++ l.name]
  | .copy _ src d =>
    if src.name = "print_int" || src.name = "print_bool" || src.name = "read_int" then
      .ok ["movq $" ++ src.name ++ ", %rax", "movq %rax, " ++ locals_.get_ref d]
    else
      .ok ["movq " ++ locals_.get_ref src ++ ", %rax",
        "movq %rax, " ++ locals_.get_ref d]
  | .condJump _ c t e =>
    .ok ["cmpq $0, " ++ locals_.get_ref c, "jne .L" ++ t.name,
      "jmp .L" ++ e.name ++ " \n"]
  | .call _ f args d =>
    if args.length > 6 then
      .error "AssertionError"
    else do
      let marshal := (args.zip argRegs).map
        (fun p => "movq " ++ locals_.get_ref p.1 ++ ", " ++ p.2)
      let dispatch ← callDispatch locals_ f args
      .ok (marshal ++ dispatch ++ ["movq %rax, " ++ locals_.get_ref d])

/-- The instruction loop of `generate_assembly`: each instruction contributes
its comment line followed by its lowering. -/
def instrBlocks (locals_ : Locals) : List Instruction → Except String (List String)
  | [] => .ok []
  | insn :: rest => do
    let ls ← asm_for_instruction locals_ insn
    let rs ← instrBlocks locals_ rest
    .ok (("# " ++ instructionRepr insn) :: ls ++ rs)

/-- `generate_assembly` from `assembly_generator.py`. -/
def generate_assembly (instructions : List Instruction) : Except String String := do
  let locals_ := Locals.init (get_all_ir_variables instructions)
  let header := [".extern print_int", ".extern print_bool", ".extern read_int \n",
    ".section .text\n", ".global main", ".type main, @function \n", "main:"]
  let comments := locals_._var_to_location.map
    (fun p => "    # " ++ p.1.name ++ " in " ++ p.2)
  let pro := ["\npushq %rbp", "movq %rsp, %rbp"] ++
    (if locals_.stack_used > 0 then
      ["subq $" ++ toString locals_.stack_used ++ ", %rsp\n"]
    else [])
  let body ← instrBlocks locals_ instructions
  let epi := ["# # Return(None)", "movq $0, %rax", "movq %rbp, %rsp",
    "popq %rbp", "ret \n"]
  .ok (String.intercalate "\n" (header ++ comments ++ pro ++ body ++ epi))

/-! ## The compilation pipeline, composed -/

/-- `parse(tokenize(src))` followed by `typecheck` in a fresh global
environment, as composed by the tests and the `__main__` blocks. -/
def typecheckSource (src : String) : Except String (Ty × Expression × Frames Ty) := do
  let e ← parse (tokenize src)
  typecheck e setup_type_env

/-- The full front end: tokenize, parse, typecheck, then lower the annotated
AST with the module's `reserved_names`. -/
def compile_to_ir (src : String) : Except String (List Instruction) := do
  let e ← parse (tokenize src)
  let (_, e', _) ← typecheck e setup_type_env
  generate_ir reserved_names e'

/-! ## Statement helpers (inspectors used by the claim theorems) -/

/-- Does a `VarExpr.name` hold a string (as the data model declares)? -/
def varNameIsString : VarName → Bool
  | .str _ => true
  | .exprName _ => false

/-- The `name` field of the first `var` statement of a program (whether the
program is a bare `VarExpr` or a block starting with one). -/
def firstVarName : Expression → Option VarName
  | .blockE _ _ (.varE _ _ n _ _ :: _) => some n
  | .varE _ _ n _ _ => some n
  | _ => none

/-- Count of `Label` pseudo-instructions with the given name. -/
def countLabelDefs (nm : String) (l : List Instruction) : Nat :=
  (l.filter (fun i =>
    match i with
    | .labelIns lab => lab.name == nm
    | _ => false)).length

/-- Count of `CondJump`s whose then-target has the given name. -/
def countCondJumpsTo (nm : String) (l : List Instruction) : Nat :=
  (l.filter (fun i =>
    match i with
    | .condJump _ _ t e => t.name == nm || e.name == nm
    | _ => false)).length

/-- The IR variables an instruction references (reads): `Copy` source,
`CondJump` condition, `Call` callee and arguments. -/
def referencedVars : Instruction → List IRVar
  | .copy _ s _ => [s]
  | .condJump _ c _ _ => [c]
  | .call _ f args _ => f :: args
  | _ => []

/-- The IR variables an instruction defines (its `dest` field). -/
def destVars : Instruction → List IRVar
  | .loadIntConst _ _ d => [d]
  | .loadBoolConst _ _ d => [d]
  | .copy _ _ d => [d]
  | .call _ _ _ d => [d]
  | _ => []

/-- All `dest` variables of an instruction list. -/
def dests (l : List Instruction) : List IRVar :=
  (l.map destVars).flatten

/-- The def-before-use scan of claim C3: walking the stream left to right,
every referenced variable must be the `dest` of an earlier instruction
(starting from `defined`) or bear a reserved global name; `allowUnit`
additionally admits the singleton `unit` variable. -/
def refsResolved (allowUnit : Bool) : List IRVar → List Instruction → Bool
  | _, [] => true
  | defined, i :: rest =>
    (referencedVars i).all (fun v =>
      defined.contains v || reserved_names.contains v.name ||
        (allowUnit && v.name == "unit"))
    && refsResolved allowUnit (defined ++ destVars i) rest

/-! ## Claim C1 -/

/-- C1: the claim says that `var f: (Int) => Unit = print_int; f(123)`
typechecks to `Unit`, with the parser's `VarExpr` carrying the declared name
as a string.  In fact `parse_var_expression` stores the `Identifier` AST node
returned by `parse_factor()` in the `name` field, and the checker's
`assert isinstance(node.name, str)` then fails, so typechecking the parsed
program raises `AssertionError` instead of returning `Unit`. -/
theorem varExpr_name_is_ast_node_and_typechecking_fails :
    ((parse (tokenize "var f: (Int) => Unit = print_int; f(123)")).map
      (fun e => (firstVarName e).map varNameIsString)) = .ok (some false)
    ∧ typecheckSource "var f: (Int) => Unit = print_int; f(123)"
        = .error "AssertionError" := by
  constructor <;> rfl

/-! ## Claim C2 -/

/-- C2: the claim says the parser appends a synthetic `Identifier("Unit")` to
a block whose last meaningful statement is non-producing.  `parse_block` never
does: `{ 1; }` parses to a block whose only (and final) statement is the
literal `1`, and `{ while true do 1 }` to one whose final statement is the
`while` itself — no `Unit` identifier anywhere. -/
theorem parse_block_appends_no_unit_identifier :
    parse (tokenize "\x7b 1; \x7d")
      = .ok (.blockE ⟨1, 1⟩ .unit [.literal ⟨1, 3⟩ .unit (.intV 1)])
    ∧ parse (tokenize "\x7b while true do 1 \x7d")
      = .ok (.blockE ⟨1, 1⟩ .unit
          [.whileE ⟨1, 3⟩ .unit (.identifier ⟨1, 9⟩ .unit "true")
            (.literal ⟨1, 17⟩ .unit (.intV 1))]) := by
  constructor <;> with_unfolding_all rfl

/-! ## Claim C4 -/

/-- C4: the claim says every `CondJump`/`Jump` target appears exactly once as
a `Label`.  `new_label` never increments `lable_counter`, so the third request
for the base name `then` produces `then2` again: in the program below the
label `then2` is defined twice (and two distinct `CondJump`s target it). -/
theorem third_then_label_is_duplicated :
    (compile_to_ir "if true then 1; if true then 1; if true then 1").map
      (fun l => (countLabelDefs "then2" l, countCondJumpsTo "then2" l))
      = .ok (2, 2) := by
  rfl

/-! ## Claim C5: counterexample -/

/-- C5 claims the parser rejects `var` anywhere but as a direct block or
top-level statement, "in particular … inside parentheses".
`parse_parenthesized` calls plain `parse_assignment`, so `(var x = 1)` parses
successfully (to the `VarExpr` itself) instead of raising an error. -/
theorem var_inside_parentheses_is_accepted :
    parse (tokenize "(var x = 1)")
      = .ok (.varE ⟨1, 2⟩ .unit (.exprName (.identifier ⟨1, 6⟩ .unit "x"))
          (.literal ⟨1, 10⟩ .unit (.intV 1)) none) := by
  with_unfolding_all rfl

/-- C5 (amended): a leading `var` is rejected exactly where the
`parse_expression_no_var` wrapper is invoked — `if`/`while` conditions and
branches/bodies and call arguments — while a `var` inside parentheses or as a
binary-operator operand is parsed successfully.  The first conjunct is the
wrapper itself, for every token position; the next three run the parser on the
rejected positions (the same sources as the repository's own tests); the last
two exhibit the accepted positions. -/
theorem no_var_wrapper_rejects_only_if_while_and_call_arguments :
    (∀ (fuel : Nat) (tokens : List Token) (pos : Nat),
      (peekTok tokens pos).text = "var" →
      parseNoVar (fuel + 1) tokens pos = .error noVarMsg)
    ∧ parse (tokenize "if var x = 3 then a") = .error noVarMsg
    ∧ parse (tokenize "while var b = 3 do c") = .error noVarMsg
    ∧ parse (tokenize "f(var = a)") = .error noVarMsg
    ∧ parse (tokenize "1 + var x = 2")
      = .ok (.binaryOp ⟨1, 3⟩ .unit (.literal ⟨1, 1⟩ .unit (.intV 1)) "+"
          (.varE ⟨1, 5⟩ .unit (.exprName (.identifier ⟨1, 9⟩ .unit "x"))
            (.literal ⟨1, 13⟩ .unit (.intV 2)) none))
    ∧ parse (tokenize "(var x = 1)")
      = .ok (.varE ⟨1, 2⟩ .unit (.exprName (.identifier ⟨1, 6⟩ .unit "x"))
          (.literal ⟨1, 10⟩ .unit (.intV 1)) none) := by
  refine ⟨fun fuel tokens pos h => ?_, ?_, ?_, ?_, ?_, ?_⟩
  · simp [parseNoVar, h]
  all_goals with_unfolding_all rfl

/-- Witness for the quantified conjunct of the amended C5 theorem, at a
concrete token list. -/
theorem no_var_wrapper_rejects_witness :
    parseNoVar 1 [⟨"var", .identifier, ⟨1, 1⟩⟩] 0 = .error noVarMsg :=
  no_var_wrapper_rejects_only_if_while_and_call_arguments.1 0
    [⟨"var", .identifier, ⟨1, 1⟩⟩] 0 rfl

/-! ## Claim C3: counterexample -/

/-- C3 claims every IR variable referenced by an instruction is an earlier
`dest` or reserved.  For `if true then 1` (type `Int`, result variable
`unit`), the final `Call(print_int, [unit], x3)` references `unit`, which is
never a `dest` and is not in `reserved_names`: the scan without the
`unit` allowance reports a violation. -/
theorem unit_variable_is_referenced_but_never_defined :
    (compile_to_ir "if true then 1").map (refsResolved false [])
      = .ok false := by
  with_unfolding_all rfl

/-! ## Claim C6 -/

/-- C6: once the root expression has been lowered (final result variable `v`,
final state `s'`), `generate_ir` appends exactly one
`Call(print_int, [v], fresh)` when the checker-assigned root type is `Int`,
exactly one `Call(print_bool, [v], fresh)` when it is `Bool`, and nothing
otherwise. -/
theorem generate_ir_appends_print_call_by_root_type
    (e : Expression) (v : IRVar) (st' : Frames IRVar) (s' : GenState)
    (h : visit [reserved_names.map (fun n => (n, ⟨n⟩))] e ⟨1, 1, [], []⟩
      = .ok (v, st', s')) :
    generate_ir reserved_names e = .ok (s'.ins ++
      match e.ty with
      | .int => [.call e.loc ⟨"print_int"⟩ [v] (new_var s').1]
      | .bool => [.call e.loc ⟨"print_bool"⟩ [v] (new_var s').1]
      | _ => []) := by
  cases he : e.ty <;>
    simp only [generate_ir, h, he, emit, new_var, List.append_nil, bind,
      Except.bind, reduceCtorEq, reduceIte, List.nil_append]

/-- Witness for C6 at the root expression `1` (annotated type `Int`). -/
theorem generate_ir_appends_print_call_witness :
    generate_ir reserved_names (.literal ⟨1, 1⟩ .int (.intV 1))
      = .ok [.loadIntConst ⟨1, 1⟩ 1 ⟨"x"⟩,
          .call ⟨1, 1⟩ ⟨"print_int"⟩ [⟨"x"⟩] ⟨"x2"⟩] := by
  have := generate_ir_appends_print_call_by_root_type
    (.literal ⟨1, 1⟩ .int (.intV 1)) ⟨"x"⟩
    [reserved_names.map (fun n => (n, ⟨n⟩))]
    ⟨2, 1, [], [.loadIntConst ⟨1, 1⟩ 1 ⟨"x"⟩]⟩ (by with_unfolding_all rfl)
  simpa [Expression.ty, Expression.loc, new_var] using this

/-! ## Claim C7 -/

/-- C7: lowering `a and b` emits, in order: the instructions of `a` (between
states `s3` and `s4`), `CondJump(va, and_right, and_skip)`, `Label and_right`,
the instructions of `b` (between `s5` and the hypothesised result), then
exactly `Copy(vb, r)`, `Jump(and_end)`, `Label and_skip`,
`LoadBoolConst(false, r)`, `Label and_end` — no `Jump` between the
`LoadBoolConst` and the final label, so the skip branch falls through — and
the result variable is the fresh `r`.  The three labels are created from the
bases `and_right`, `and_end`, `and_skip` before `a` is visited. -/
theorem and_lowering_shape
    (st : Frames IRVar) (loc : Location) (ty : Ty) (a b : Expression)
    (s s1 s2 s3 s4 s5 s6 : GenState) (lr le ls : Label)
    (va vb r : IRVar) (stA stB : Frames IRVar)
    (hl1 : new_label b.loc "and_right" s = (lr, s1))
    (hl2 : new_label b.loc "and_end" s1 = (le, s2))
    (hl3 : new_label b.loc "and_skip" s2 = (ls, s3))
    (ha : visit st a s3 = .ok (va, stA, s4))
    (hb : visit stA b
        { s4 with ins := s4.ins ++ [.condJump loc va lr ls, .labelIns lr] }
      = .ok (vb, stB, s5))
    (hv : new_var s5 = (r, s6)) :
    visit st (.binaryOp loc ty a "and" b) s = .ok (r, stB,
      { s6 with ins := s6.ins ++ [.copy loc vb r, .jump loc le, .labelIns ls,
          .loadBoolConst loc false r, .labelIns le] })
    ∧ s3.ins = s.ins
    ∧ s6.ins = s5.ins := by
  refine ⟨?_, ?_, ?_⟩
  · simp only [visit, String.reduceEq, reduceIte, hl1, hl2, hl3, ha, bind,
      Except.bind, emit]
    rw [List.append_assoc, List.singleton_append, hb]
    have hv1 : (new_var s5).1 = r := by rw [hv]
    have hv2 : (new_var s5).2 = s6 := by rw [hv]
    simp [hv1, hv2]
  · have e1 : s1 = (new_label b.loc "and_right" s).2 := by rw [hl1]
    have e2 : s2 = (new_label b.loc "and_end" s1).2 := by rw [hl2]
    have e3 : s3 = (new_label b.loc "and_skip" s2).2 := by rw [hl3]
    subst e1; subst e2; subst e3; simp [new_label]
  · have e6 : s6 = (new_var s5).2 := by rw [hv]
    subst e6; simp [new_var]

/-- Witness for C7: lowering `true and false` from a fresh state. -/
theorem and_lowering_shape_witness :
    visit [reserved_names.map (fun n => (n, ⟨n⟩))]
        (.binaryOp ⟨1, 6⟩ .bool (.identifier ⟨1, 1⟩ .bool "true") "and"
          (.identifier ⟨1, 10⟩ .bool "false")) ⟨1, 1, [], []⟩
      = .ok (⟨"x3"⟩, [reserved_names.map (fun n => (n, ⟨n⟩))],
          ⟨4, 1, ["and_right", "and_end", "and_skip"],
            [.loadBoolConst ⟨1, 1⟩ true ⟨"x"⟩,
             .condJump ⟨1, 6⟩ ⟨"x"⟩ ⟨⟨1, 10⟩, "and_right"⟩ ⟨⟨1, 10⟩, "and_skip"⟩,
             .labelIns ⟨⟨1, 10⟩, "and_right"⟩,
             .loadBoolConst ⟨1, 10⟩ false ⟨"x2"⟩,
             .copy ⟨1, 6⟩ ⟨"x2"⟩ ⟨"x3"⟩,
             .jump ⟨1, 6⟩ ⟨⟨1, 10⟩, "and_end"⟩,
             .labelIns ⟨⟨1, 10⟩, "and_skip"⟩,
             .loadBoolConst ⟨1, 6⟩ false ⟨"x3"⟩,
             .labelIns ⟨⟨1, 10⟩, "and_end"⟩]⟩) := by
  have h := (and_lowering_shape
    [reserved_names.map (fun n => (n, ⟨n⟩))] ⟨1, 6⟩ .bool
    (.identifier ⟨1, 1⟩ .bool "true") (.identifier ⟨1, 10⟩ .bool "false")
    ⟨1, 1, [], []⟩
    ⟨1, 1, ["and_right"], []⟩
    ⟨1, 1, ["and_right", "and_end"], []⟩
    ⟨1, 1, ["and_right", "and_end", "and_skip"], []⟩
    ⟨2, 1, ["and_right", "and_end", "and_skip"],
      [.loadBoolConst ⟨1, 1⟩ true ⟨"x"⟩]⟩
    ⟨3, 1, ["and_right", "and_end", "and_skip"],
      [.loadBoolConst ⟨1, 1⟩ true ⟨"x"⟩,
       .condJump ⟨1, 6⟩ ⟨"x"⟩ ⟨⟨1, 10⟩, "and_right"⟩ ⟨⟨1, 10⟩, "and_skip"⟩,
       .labelIns ⟨⟨1, 10⟩, "and_right"⟩,
       .loadBoolConst ⟨1, 10⟩ false ⟨"x2"⟩]⟩
    ⟨4, 1, ["and_right", "and_end", "and_skip"],
      [.loadBoolConst ⟨1, 1⟩ true ⟨"x"⟩,
       .condJump ⟨1, 6⟩ ⟨"x"⟩ ⟨⟨1, 10⟩, "and_right"⟩ ⟨⟨1, 10⟩, "and_skip"⟩,
       .labelIns ⟨⟨1, 10⟩, "and_right"⟩,
       .loadBoolConst ⟨1, 10⟩ false ⟨"x2"⟩]⟩
    ⟨⟨1, 10⟩, "and_right"⟩ ⟨⟨1, 10⟩, "and_end"⟩ ⟨⟨1, 10⟩, "and_skip"⟩
    ⟨"x"⟩ ⟨"x2"⟩ ⟨"x3"⟩
    [reserved_names.map (fun n => (n, ⟨n⟩))]
    [reserved_names.map (fun n => (n, ⟨n⟩))]
    (by with_unfolding_all rfl) (by with_unfolding_all rfl)
    (by with_unfolding_all rfl) (by with_unfolding_all rfl)
    (by with_unfolding_all rfl) (by with_unfolding_all rfl)).1
  exact h.trans (by with_unfolding_all rfl)

/-! ## Claim C9 -/

/-- Each instruction's comment-plus-lowering block sits contiguously in the
emitted line list, in stream order. -/
theorem instrBlocks_getElem (locals_ : Locals) :
    ∀ (instrs : List Instruction) (i : Nat) (insn : Instruction)
      (lines : List String),
    instrs[i]? = some insn →
    instrBlocks locals_ instrs = .ok lines →
    ∃ ls pre post, asm_for_instruction locals_ insn = .ok ls ∧
      lines = pre ++ ("# " ++ instructionRepr insn) :: ls ++ post
  | [], i, insn, lines, h, _ => by simp at h
  | insn0 :: rest, i, insn, lines, h, hok => by
    rcases hls : asm_for_instruction locals_ insn0 with msg | ls0
    · simp [instrBlocks, hls, Except.bind, bind] at hok
    rcases hrs : instrBlocks locals_ rest with msg | rs
    · simp [instrBlocks, hls, hrs, Except.bind, bind] at hok
    have hlines : lines = ("# " ++ instructionRepr insn0) :: ls0 ++ rs := by
      simp only [instrBlocks, hls, hrs, bind, Except.bind] at hok
      exact (Except.ok.injEq _ _ ▸ hok.symm)
    match i with
    | 0 =>
      have hi : insn = insn0 := by simpa using h.symm
      subst hi
      exact ⟨ls0, [], rs, hls, by simpa using hlines⟩
    | j + 1 =>
      have hj : rest[j]? = some insn := by simpa using h
      obtain ⟨ls, pre, post, h1, h2⟩ :=
        instrBlocks_getElem locals_ rest j insn rs hj hrs
      exact ⟨ls, ("# " ++ instructionRepr insn0) :: ls0 ++ pre, post, h1, by
        simp [hlines, h2]⟩

/-- C9: for a `LoadIntConst(v, dest)` anywhere in the instruction stream, the
assembly emitted for it is exactly `movq $v, slot` when
`-2^31 ≤ v < 2^31`, and `movabsq $v, %rax; movq %rax, slot` otherwise, where
`slot` is the stack slot of `dest`. -/
theorem loadIntConst_uses_movabsq_outside_int32
    (instrs : List Instruction) (i : Nat) (loc : Location) (v : Int)
    (d : IRVar) (lines : List String)
    (h : instrs[i]? = some (.loadIntConst loc v d))
    (hok : instrBlocks (Locals.init (get_all_ir_variables instrs)) instrs
      = .ok lines) :
    ∃ pre post, lines = pre ++
      ("# " ++ instructionRepr (.loadIntConst loc v d)) ::
      (if -2 ^ 31 ≤ v ∧ v < 2 ^ 31 then
        ["movq $" ++ toString v ++ ", " ++
          (Locals.init (get_all_ir_variables instrs)).get_ref d ++ " \n"]
      else
        ["movabsq $" ++ toString v ++ ", %rax",
         "movq %rax, " ++ (Locals.init (get_all_ir_variables instrs)).get_ref d])
      ++ post := by
  obtain ⟨ls, pre, post, h1, h2⟩ :=
    instrBlocks_getElem (Locals.init (get_all_ir_variables instrs)) instrs i
      (.loadIntConst loc v d) lines h hok
  refine ⟨pre, post, ?_⟩
  rw [h2]
  congr 1
  congr 1
  have : ls = (if -2 ^ 31 ≤ v ∧ v < 2 ^ 31 then
      ["movq $" ++ toString v ++ ", " ++
        (Locals.init (get_all_ir_variables instrs)).get_ref d ++ " \n"]
    else
      ["movabsq $" ++ toString v ++ ", %rax",
       "movq %rax, " ++ (Locals.init (get_all_ir_variables instrs)).get_ref d]) := by
    simp only [asm_for_instruction] at h1
    split at h1
    · rw [if_pos ‹_›]; exact (Except.ok.inj h1).symm
    · rw [if_neg ‹_›]; exact (Except.ok.inj h1).symm
  rw [this]

/-- Witness for C9: a small and a large constant. -/
theorem loadIntConst_witness :
    (∃ pre post,
      ["# " ++ instructionRepr (.loadIntConst ⟨1, 1⟩ 7 ⟨"x"⟩),
       "movq $7, -8(%rbp) \n"] = pre ++
        ("# " ++ instructionRepr (.loadIntConst ⟨1, 1⟩ 7 ⟨"x"⟩)) ::
        (if -2 ^ 31 ≤ (7 : Int) ∧ (7 : Int) < 2 ^ 31 then
          ["movq $" ++ toString (7 : Int) ++ ", " ++
            (Locals.init (get_all_ir_variables [.loadIntConst ⟨1, 1⟩ 7 ⟨"x"⟩])).get_ref ⟨"x"⟩ ++ " \n"]
        else
          ["movabsq $" ++ toString (7 : Int) ++ ", %rax",
           "movq %rax, " ++
             (Locals.init (get_all_ir_variables [.loadIntConst ⟨1, 1⟩ 7 ⟨"x"⟩])).get_ref ⟨"x"⟩])
        ++ post) :=
  loadIntConst_uses_movabsq_outside_int32
    [.loadIntConst ⟨1, 1⟩ 7 ⟨"x"⟩] 0 ⟨1, 1⟩ 7 ⟨"x"⟩
    ["# " ++ instructionRepr (.loadIntConst ⟨1, 1⟩ 7 ⟨"x"⟩),
     "movq $7, -8(%rbp) \n"]
    (by with_unfolding_all rfl) (by with_unfolding_all rfl)

/-! ## Claim C8 -/

/-- All IR-variable occurrences of the stream, flattened in field order. -/
def allVarOccurrences (instrs : List Instruction) : List IRVar :=
  (instrs.map instructionIRVarFields).flatten

theorem get_all_eq_foldl_flatten (instrs : List Instruction) :
    get_all_ir_variables instrs = (allVarOccurrences instrs).foldl addVar [] := by
  have h : ∀ (L : List (List IRVar)) (acc : List IRVar),
      L.foldl (fun acc l => l.foldl addVar acc) acc = L.flatten.foldl addVar acc := by
    intro L
    induction L with
    | nil => intro acc; rfl
    | cons l L ih => intro acc; simp [List.foldl_append, ih]
  rw [get_all_ir_variables, allVarOccurrences, ← h, List.foldl_map]

theorem addVar_mem (acc : List IRVar) (v w : IRVar) :
    w ∈ addVar acc v ↔ w ∈ acc ∨ w = v := by
  unfold addVar
  by_cases h : acc.contains v = true
  · rw [if_pos h]
    have hv : v ∈ acc := List.elem_iff.mp h
    constructor
    · exact Or.inl
    · rintro (hw | rfl)
      · exact hw
      · exact hv
  · rw [if_neg h]
    simp [List.mem_append]

/-- Structure of one dedup fold: the accumulator is extended, in
first-appearance order, by exactly the fresh variables of the suffix. -/
theorem foldl_addVar_spec :
    ∀ (occs acc : List IRVar), acc.Nodup →
    ∃ extra, occs.foldl addVar acc = acc ++ extra
      ∧ (acc ++ extra).Nodup
      ∧ (∀ v, v ∈ extra ↔ (v ∉ acc ∧ v ∈ occs))
      ∧ List.Pairwise (fun a b => occs.indexOf a < occs.indexOf b) extra := by
  intro occs
  induction occs with
  | nil =>
    intro acc hacc
    exact ⟨[], by simp, by simpa using hacc, by simp, by simp⟩
  | cons o rest ih =>
    intro acc hacc
    by_cases ho : o ∈ acc
    · have hstep : addVar acc o = acc := by
        simp [addVar, ho]
      obtain ⟨extra, h1, h2, h3, h4⟩ := ih acc hacc
      refine ⟨extra, by simpa [hstep] using h1, h2, fun v => ?_, ?_⟩
      · rw [h3 v]
        constructor
        · rintro ⟨hv1, hv2⟩; exact ⟨hv1, by simp [hv2]⟩
        · rintro ⟨hv1, hv2⟩
          rcases List.mem_cons.mp hv2 with rfl | hv2
          · exact absurd ho hv1
          · exact ⟨hv1, hv2⟩
      · refine h4.imp_of_mem ?_
        intro a b hma hmb hlt
        have hna : a ≠ o := fun he => ((h3 a).mp hma).1 (he ▸ ho)
        have hnb : b ≠ o := fun he => ((h3 b).mp hmb).1 (he ▸ ho)
        simp only [List.indexOf_cons_ne _ (Ne.symm hna),
          List.indexOf_cons_ne _ (Ne.symm hnb)]
        omega
    · have hstep : addVar acc o = acc ++ [o] := by
        simp [addVar, ho]
      have hacc' : (acc ++ [o]).Nodup := by
        simp [List.nodup_append, hacc, ho]
      obtain ⟨extra, h1, h2, h3, h4⟩ := ih (acc ++ [o]) hacc'
      refine ⟨o :: extra, ?_, ?_, fun v => ?_, ?_⟩
      · simpa [hstep, List.append_assoc] using h1
      · simpa [List.append_assoc] using h2
      · constructor
        · intro hv
          rcases List.mem_cons.mp hv with rfl | hv
          · exact ⟨ho, by simp⟩
          · obtain ⟨hv1, hv2⟩ := (h3 v).mp hv
            refine ⟨fun hmem => hv1 (by simp [hmem]), by simp [hv2]⟩
        · rintro ⟨hv1, hv2⟩
          rcases List.mem_cons.mp hv2 with rfl | hv2
          · exact List.mem_cons_self _ _
          · by_cases hvo : v = o
            · simp [hvo]
            · exact List.mem_cons_of_mem _ ((h3 v).mpr ⟨by simp [hv1, hvo], hv2⟩)
      · refine List.pairwise_cons.mpr ⟨?_, ?_⟩
        · intro b hb
          have hnb : b ≠ o := fun he =>
            (((h3 b).mp hb).1) (he ▸ by simp)
          simp only [List.indexOf_cons_self,
            List.indexOf_cons_ne _ (Ne.symm hnb)]
          omega
        · refine h4.imp_of_mem ?_
          intro a b hma hmb hlt
          have hna : a ≠ o := fun he => (((h3 a).mp hma).1) (he ▸ by simp)
          have hnb : b ≠ o := fun he => (((h3 b).mp hmb).1) (he ▸ by simp)
          simp only [List.indexOf_cons_ne _ (Ne.symm hna),
            List.indexOf_cons_ne _ (Ne.symm hnb)]
          omega

/-- The slot pairs built by `Locals.__init__` from index `i` on. -/
def slotPairs : List IRVar → Nat → List (IRVar × String)
  | [], _ => []
  | v :: rest, i =>
    (v, "-" ++ toString ((i + 1) * 8) ++ "(%rbp)") :: slotPairs rest (i + 1)

theorem updateVarLoc_fresh :
    ∀ (acc : List (IRVar × String)) (v : IRVar) (slot : String),
    (∀ p ∈ acc, p.1 ≠ v) → updateVarLoc acc v slot = acc ++ [(v, slot)]
  | [], v, slot, _ => rfl
  | (k, w) :: rest, v, slot, h => by
    have hk : k ≠ v := h (k, w) (by simp)
    simp only [updateVarLoc, if_neg hk, List.cons_append, List.cons.injEq,
      true_and]
    exact updateVarLoc_fresh rest v slot fun p hp => h p (by simp [hp])

theorem mkVarToLocation_eq :
    ∀ (vs : List IRVar) (i : Nat) (acc : List (IRVar × String)),
    (∀ v ∈ vs, ∀ p ∈ acc, p.1 ≠ v) → vs.Nodup →
    mkVarToLocation vs i acc = acc ++ slotPairs vs i
  | [], i, acc, _, _ => by simp [mkVarToLocation, slotPairs]
  | v :: rest, i, acc, hfresh, hnd => by
    have hstep := updateVarLoc_fresh acc v
      ("-" ++ toString ((i + 1) * 8) ++ "(%rbp)")
      (fun p hp => hfresh v (by simp) p hp)
    have hnd' := (List.nodup_cons.mp hnd)
    have := mkVarToLocation_eq rest (i + 1)
      (acc ++ [(v, "-" ++ toString ((i + 1) * 8) ++ "(%rbp)")])
      (fun w hw p hp => by
        rcases List.mem_append.mp hp with hp | hp
        · exact hfresh w (by simp [hw]) p hp
        · simp only [List.mem_singleton] at hp
          subst hp
          intro he
          exact hnd'.1 (by rw [show v = w from he] at hnd' ⊢; exact hw))
      hnd'.2
    simp [mkVarToLocation, hstep, this, slotPairs]

theorem slotPairs_find :
    ∀ (vs : List IRVar), vs.Nodup → ∀ (i j : Nat) (hj : j < vs.length),
    (slotPairs vs i).find? (fun p => p.1 == vs.get ⟨j, hj⟩)
      = some (vs.get ⟨j, hj⟩, "-" ++ toString ((i + j + 1) * 8) ++ "(%rbp)")
  | [], _, i, j, hj => by simp at hj
  | v :: rest, hnd, i, 0, hj => by
    simp [slotPairs, List.find?]
  | v :: rest, hnd, i, j + 1, hj => by
    have hnd' := List.nodup_cons.mp hnd
    have hgm : rest.get ⟨j, by simpa using hj⟩ ∈ rest := List.get_mem _ _ _
    have hne : (v == rest.get ⟨j, by simpa using hj⟩) = false := by
      rw [beq_eq_false_iff_ne]
      exact fun he => hnd'.1 (he ▸ hgm)
    have ih := slotPairs_find rest hnd'.2 (i + 1) j (by simpa using hj)
    have harith : i + 1 + j + 1 = i + (j + 1) + 1 := by omega
    simp only [slotPairs, List.get_cons_succ, List.find?, hne]
    rw [ih, harith]

/-- C8: `get_all_ir_variables` collects, without duplicates and in
first-appearance order, exactly the IR variables occurring in any field of any
instruction; `Locals` assigns the i-th collected variable (1-based) the slot
`-(8*i)(%rbp)`, and reserves `8 * (number of distinct IR variables)` bytes of
frame. -/
theorem locals_assigns_slots_in_first_appearance_order
    (instrs : List Instruction) :
    (get_all_ir_variables instrs).Nodup
    ∧ (∀ v, v ∈ get_all_ir_variables instrs ↔ v ∈ allVarOccurrences instrs)
    ∧ (∀ i j (hi : i < (get_all_ir_variables instrs).length)
        (hj : j < (get_all_ir_variables instrs).length), i < j →
        List.indexOf ((get_all_ir_variables instrs).get ⟨i, hi⟩)
            (allVarOccurrences instrs)
          < List.indexOf ((get_all_ir_variables instrs).get ⟨j, hj⟩)
            (allVarOccurrences instrs))
    ∧ (∀ i (hi : i < (get_all_ir_variables instrs).length),
        (Locals.init (get_all_ir_variables instrs)).get_ref
            ((get_all_ir_variables instrs).get ⟨i, hi⟩)
          = "-" ++ toString ((i + 1) * 8) ++ "(%rbp)")
    ∧ (Locals.init (get_all_ir_variables instrs)).stack_used
        = 8 * (get_all_ir_variables instrs).length := by
  obtain ⟨extra, h1, h2, h3, h4⟩ :=
    foldl_addVar_spec (allVarOccurrences instrs) [] List.nodup_nil
  have hv : get_all_ir_variables instrs = extra := by
    rw [get_all_eq_foldl_flatten]
    simpa using h1
  have hnd : (get_all_ir_variables instrs).Nodup := by
    rw [hv]; simpa using h2
  refine ⟨hnd, ?_, ?_, ?_, ?_⟩
  · intro v
    rw [hv, h3 v]
    simp
  · intro i j hi hj hij
    have := (List.pairwise_iff_get.mp (hv ▸ h4 :
      List.Pairwise (fun a b => List.indexOf a (allVarOccurrences instrs)
        < List.indexOf b (allVarOccurrences instrs))
        (get_all_ir_variables instrs))) ⟨i, hi⟩ ⟨j, hj⟩ hij
    exact this
  · intro i hi
    have hloc : (Locals.init (get_all_ir_variables instrs))._var_to_location
        = slotPairs (get_all_ir_variables instrs) 0 := by
      have := mkVarToLocation_eq (get_all_ir_variables instrs) 0 []
        (fun _ _ p hp => by simp at hp) hnd
      simpa [Locals.init] using this
    have hfind := slotPairs_find (get_all_ir_variables instrs) hnd 0 i hi
    have harith : 0 + i + 1 = i + 1 := by omega
    rw [harith] at hfind
    simp only [List.get_eq_getElem] at hfind
    simp [Locals.get_ref, hloc, hfind]
  · simp [Locals.init, Locals.stack_used, Nat.mul_comm]

/-- Witness for C8 on a two-variable instruction stream. -/
theorem locals_assigns_slots_witness :
    (get_all_ir_variables [.copy ⟨1, 1⟩ ⟨"a"⟩ ⟨"b"⟩]).Nodup
    ∧ (Locals.init (get_all_ir_variables
        [.copy ⟨1, 1⟩ ⟨"a"⟩ ⟨"b"⟩])).get_ref ⟨"a"⟩ = "-8(%rbp)"
    ∧ (Locals.init (get_all_ir_variables
        [.copy ⟨1, 1⟩ ⟨"a"⟩ ⟨"b"⟩])).get_ref ⟨"b"⟩ = "-16(%rbp)"
    ∧ (Locals.init (get_all_ir_variables
        [.copy ⟨1, 1⟩ ⟨"a"⟩ ⟨"b"⟩])).stack_used = 16 := by
  obtain ⟨h1, _, _, h4, h5⟩ :=
    locals_assigns_slots_in_first_appearance_order [.copy ⟨1, 1⟩ ⟨"a"⟩ ⟨"b"⟩]
  refine ⟨h1, ?_, ?_, ?_⟩
  · exact (h4 0 (by decide)).trans (by rfl)
  · exact (h4 1 (by decide)).trans (by rfl)
  · exact h5.trans (by rfl)

/-! ## Claim C10 -/

/-- Statement helper for C10: sequentially typechecks the expressions of an
(argument, parameter) zip with the same fuel discipline as `tcCallArgs`,
collecting the argument types without comparing them to anything. -/
def typecheckZip : Nat → List (Expression × Ty) → Frames Ty →
    Except String (List Ty × Frames Ty)
  | 0, _, _ => .error "out of fuel"
  | _ + 1, [], env => .ok ([], env)
  | fuel + 1, (a, _) :: rest, env => do
    let (t, _, env') ← typecheckF fuel a env
    let (ts, env'') ← typecheckZip fuel rest env'
    .ok (t :: ts, env'')
termination_by structural fuel _ _ => fuel

/-- The call-argument loop succeeds exactly when the collected argument types
equal the zipped parameter prefix. -/
theorem tcCallArgs_spec (fname : String) :
    ∀ (fuel : Nat) (args : List Expression) (ps : List Ty) (env : Frames Ty)
      (ts : List Ty) (env2 : Frames Ty),
    typecheckZip fuel (args.zip ps) env = .ok (ts, env2) →
    (ts = ps.take args.length →
      ∃ checked, tcCallArgs fuel fname args ps env = .ok (checked, env2))
    ∧ (ts ≠ ps.take args.length →
      ∃ msg, tcCallArgs fuel fname args ps env = .error msg)
  | 0, args, ps, env, ts, env2, h => by
    simp [typecheckZip] at h
  | fuel + 1, [], ps, env, ts, env2, h => by
    simp only [List.zip_nil_left, typecheckZip] at h
    obtain ⟨rfl, rfl⟩ : ts = [] ∧ env = env2 := by
      simpa using And.intro (congrArg Prod.fst (Except.ok.inj h))
        (congrArg Prod.snd (Except.ok.inj h))
    exact ⟨fun _ => ⟨[], by simp [tcCallArgs]⟩,
      fun hne => absurd (by simp) hne⟩
  | fuel + 1, a :: as_, [], env, ts, env2, h => by
    simp only [List.zip_nil_right, typecheckZip] at h
    obtain ⟨rfl, rfl⟩ : ts = [] ∧ env = env2 := by
      simpa using And.intro (congrArg Prod.fst (Except.ok.inj h))
        (congrArg Prod.snd (Except.ok.inj h))
    exact ⟨fun _ => ⟨[], by simp [tcCallArgs]⟩,
      fun hne => absurd (by simp) hne⟩
  | fuel + 1, a :: as_, p :: ps, env, ts, env2, h => by
    simp only [List.zip_cons_cons, typecheckZip, bind, Except.bind] at h
    have hz : List.zipWith Prod.mk as_ ps = as_.zip ps := rfl
    rw [hz] at h
    rcases ha : typecheckF fuel a env with msg | ⟨t, a', env'⟩
    · rw [ha] at h; cases h
    rw [ha] at h
    dsimp only at h
    rcases hrest : typecheckZip fuel (as_.zip ps) env' with msg | ⟨ts', env''⟩
    · rw [hrest] at h; cases h
    rw [hrest] at h
    obtain ⟨rfl, rfl⟩ : t :: ts' = ts ∧ env'' = env2 := by
      simpa using And.intro (congrArg Prod.fst (Except.ok.inj h))
        (congrArg Prod.snd (Except.ok.inj h))
    obtain ⟨ih1, ih2⟩ := tcCallArgs_spec fname fuel as_ ps env' ts' env'' hrest
    constructor
    · intro heq
      simp only [List.length_cons, List.take_succ_cons, List.cons.injEq] at heq
      obtain ⟨rfl, heq2⟩ := heq
      obtain ⟨checked, hch⟩ := ih1 heq2
      exact ⟨a' :: checked, by
        simp [tcCallArgs, ha, hch, bind, Except.bind]⟩
    · intro hne
      simp only [List.length_cons, List.take_succ_cons, ne_eq,
        List.cons.injEq, not_and] at hne
      by_cases hpt : t = p
      · subst hpt
        have hne2 : ts' ≠ ps.take as_.length := fun he => hne rfl he
        obtain ⟨msg, hmsg⟩ := ih2 hne2
        exact ⟨msg, by simp [tcCallArgs, ha, hmsg, bind, Except.bind]⟩
      · refine ⟨"Function \x27" ++ fname ++ "\x27 expects argument of type "
            ++ pyTyStr p ++ ", got " ++ pyTyStr t, ?_⟩
        simp [tcCallArgs, ha, bind, Except.bind, hpt]

/-- C10: a call with at most six arguments whose callee identifier is bound
to a `Fun` type fails the checker exactly when one of the first
`min(#args, #params)` argument types differs from the parameter type at the
same position; an argument/parameter count mismatch alone is accepted, and a
successful call has the function's return type (the environment ends as the
arguments left it). -/
theorem call_errors_iff_zipped_argument_type_mismatch
    (fuel : Nat) (loc cloc : Location) (ty cty : Ty) (fname : String)
    (args : List Expression) (env : Frames Ty) (ps : List Ty) (r : Ty)
    (ts : List Ty) (env2 : Frames Ty)
    (hfun : lookupFrames env fname = some (.funT ps r))
    (hlen : args.length ≤ 6)
    (hargs : typecheckZip fuel (args.zip ps) env = .ok (ts, env2)) :
    ((typecheckF (fuel + 1)
        (.functionExpr loc ty (.identifier cloc cty fname) args) env).isOk
      ↔ ts = ps.take args.length)
    ∧ (ts = ps.take args.length →
      ∃ args', typecheckF (fuel + 1)
          (.functionExpr loc ty (.identifier cloc cty fname) args) env
        = .ok (r, .functionExpr loc r (.identifier cloc cty fname) args', env2)) := by
  have hlen' : ¬ args.length > 6 := by omega
  obtain ⟨hok, herr⟩ := tcCallArgs_spec fname fuel args ps env ts env2 hargs
  constructor
  · constructor
    · intro hisok
      by_contra hne
      obtain ⟨msg, hmsg⟩ := herr hne
      simp [typecheckF, hlen', tcLookup, hfun, hmsg, bind, Except.bind,
        Except.isOk, Except.toBool] at hisok
    · intro heq
      obtain ⟨checked, hch⟩ := hok heq
      simp [typecheckF, hlen', tcLookup, hfun, hch, bind, Except.bind,
        Except.isOk, Except.toBool]
  · intro heq
    obtain ⟨checked, hch⟩ := hok heq
    refine ⟨checked ++ args.drop checked.length, ?_⟩
    simp [typecheckF, hlen', tcLookup, hfun, hch, bind, Except.bind]

/-- Witness for C10: `print_int()` — zero arguments against one parameter —
typechecks and returns `Unit`. -/
theorem call_count_mismatch_accepted_witness :
    ∃ args', typecheckF 2
        (.functionExpr ⟨1, 10⟩ .unit (.identifier ⟨1, 1⟩ .unit "print_int") [])
        setup_type_env
      = .ok (.unit, .functionExpr ⟨1, 10⟩ .unit
          (.identifier ⟨1, 1⟩ .unit "print_int") args', setup_type_env) :=
  (call_errors_iff_zipped_argument_type_mismatch 1 ⟨1, 10⟩ ⟨1, 1⟩ .unit .unit
    "print_int" [] setup_type_env [.int] .unit [] setup_type_env
    (by with_unfolding_all rfl) (by decide) (by with_unfolding_all rfl)).2 rfl

/-! ## Claim C3: the amended invariant, proved for every program -/

/-- Availability of an IR variable after a prefix of the stream: it was a
`dest`, or is reserved, or is the `unit` sentinel. -/
def availB (ins : List Instruction) (v : IRVar) : Bool :=
  (dests ins).contains v || reserved_names.contains v.name || v.name == "unit"

theorem dests_append (l1 l2 : List Instruction) :
    dests (l1 ++ l2) = dests l1 ++ dests l2 := by
  simp [dests]

theorem availB_mono (l more : List Instruction) (v : IRVar)
    (h : availB l v = true) : availB (l ++ more) v = true := by
  simp only [availB, Bool.or_eq_true, List.elem_iff, dests_append,
    List.mem_append, beq_iff_eq] at h ⊢
  tauto

theorem availB_of_dest (l d : List Instruction) (v : IRVar)
    (h : v ∈ dests d) : availB (l ++ d) v = true := by
  simp only [availB, Bool.or_eq_true, List.elem_iff, dests_append,
    List.mem_append]
  tauto

theorem refsResolved_append (u : Bool) :
    ∀ (l1 : List Instruction) (d : List IRVar) (l2 : List Instruction),
    refsResolved u d (l1 ++ l2)
      = (refsResolved u d l1 && refsResolved u (d ++ dests l1) l2)
  | [], d, l2 => by simp [refsResolved, dests]
  | i :: l1, d, l2 => by
    simp only [List.cons_append, refsResolved, List.append_eq]
    rw [refsResolved_append u l1 (d ++ destVars i) l2]
    simp [dests, Bool.and_assoc, List.append_assoc]

/-- A one-instruction segment is well-referenced when each variable the
instruction reads is available after the base. -/
theorem goodSeg_single (base : List Instruction) (i : Instruction)
    (h : ∀ v ∈ referencedVars i, availB base v = true) :
    refsResolved true (dests base) [i] = true := by
  simp only [refsResolved, Bool.and_eq_true, List.all_eq_true]
  refine ⟨fun v hv => ?_, trivial⟩
  have := h v hv
  simpa [availB] using this

theorem goodSeg_trans (base d1 d2 : List Instruction)
    (h1 : refsResolved true (dests base) d1 = true)
    (h2 : refsResolved true (dests (base ++ d1)) d2 = true) :
    refsResolved true (dests base) (d1 ++ d2) = true := by
  rw [refsResolved_append, h1, Bool.true_and]
  rw [dests_append] at h2
  exact h2

/-- All frame entries of the symbol table are available after `ins`. -/
def EnvOkB (st : Frames IRVar) (ins : List Instruction) : Prop :=
  ∀ f ∈ st, ∀ p ∈ f, availB ins p.2 = true

theorem envOkB_mono (st : Frames IRVar) (l more : List Instruction)
    (h : EnvOkB st l) : EnvOkB st (l ++ more) :=
  fun f hf p hp => availB_mono l more p.2 (h f hf p hp)

theorem envOkB_push (st : Frames IRVar) (ins : List Instruction)
    (h : EnvOkB st ins) : EnvOkB ([] :: st) ins := by
  intro f hf p hp
  rcases List.mem_cons.mp hf with rfl | hf
  · simp at hp
  · exact h f hf p hp

theorem envOkB_tail (st : Frames IRVar) (ins : List Instruction)
    (h : EnvOkB st ins) : EnvOkB st.tail ins := by
  intro f hf p hp
  exact h f (List.mem_of_mem_tail hf) p hp

theorem updateAssoc_avail (ins : List Instruction) (nm : String) (v : IRVar)
    (hv : availB ins v = true) :
    ∀ (f : List (String × IRVar)),
    (∀ q ∈ f, availB ins q.2 = true) →
    ∀ q ∈ updateAssoc f nm v, availB ins q.2 = true
  | [], _, q, hq => by
    simp only [updateAssoc, List.mem_singleton] at hq
    subst hq; exact hv
  | (k, w) :: rest, hf, q, hq => by
    rw [updateAssoc] at hq
    by_cases hk : k = nm
    · rw [if_pos hk] at hq
      rcases List.mem_cons.mp hq with rfl | hq
      · exact hv
      · exact hf q (List.mem_cons_of_mem _ hq)
    · rw [if_neg hk] at hq
      rcases List.mem_cons.mp hq with rfl | hq
      · exact hf (k, w) (List.mem_cons_self _ _)
      · exact updateAssoc_avail ins nm v hv rest
          (fun r hr => hf r (List.mem_cons_of_mem _ hr)) q hq

theorem envOkB_define (st : Frames IRVar) (ins : List Instruction)
    (nm : String) (v : IRVar)
    (h : EnvOkB st ins) (hv : availB ins v = true) :
    EnvOkB (defineVar st nm v) ins := by
  cases st with
  | nil =>
    intro f hf p hp
    simp only [defineVar, List.mem_singleton] at hf
    subst hf
    simp only [List.mem_singleton] at hp
    subst hp; exact hv
  | cons g rest =>
    intro f hf p hp
    simp only [defineVar] at hf
    rcases List.mem_cons.mp hf with rfl | hf
    · exact updateAssoc_avail ins nm v hv g
        (fun q hq => h g (List.mem_cons_self _ _) q hq) p hp
    · exact h f (List.mem_cons_of_mem _ hf) p hp

theorem emit_ins (i : Instruction) (s : GenState) : (emit i s).ins = s.ins ++ [i] :=
  rfl

theorem new_var_ins (s : GenState) : (new_var s).2.ins = s.ins :=
  rfl

theorem new_label_ins (loc : Location) (b : String) (s : GenState) :
    (new_label loc b s).2.ins = s.ins :=
  rfl

theorem avail_unit (ins : List Instruction) : availB ins var_unit = true := by
  simp [availB, var_unit]

theorem goodSeg_snoc (base d : List Instruction) (i : Instruction)
    (hd : refsResolved true (dests base) d = true)
    (hi : ∀ v ∈ referencedVars i, availB (base ++ d) v = true) :
    refsResolved true (dests base) (d ++ [i]) = true :=
  goodSeg_trans base d [i] hd (goodSeg_single (base ++ d) i hi)

theorem lookupFrame_mem {α : Type} (f : List (String × α)) (n : String) (v : α)
    (h : lookupFrame f n = some v) : ∃ k, (k, v) ∈ f := by
  unfold lookupFrame at h
  rcases Option.map_eq_some'.mp h with ⟨p, hp, hv⟩
  exact ⟨p.1, by
    have := List.mem_of_find?_eq_some hp
    subst hv
    simpa using this⟩

theorem lookupFrames_avail :
    ∀ (st : Frames IRVar) (n : String) (v : IRVar) (ins : List Instruction),
    lookupFrames st n = some v → EnvOkB st ins → availB ins v = true
  | [], n, v, ins, h, _ => by simp [lookupFrames] at h
  | f :: rest, n, v, ins, h, henv => by
    rw [lookupFrames] at h
    rcases hf : lookupFrame f n with _ | w
    · rw [hf] at h
      exact lookupFrames_avail rest n v ins h
        (fun g hg p hp => henv g (List.mem_cons_of_mem _ hg) p hp)
    · rw [hf] at h
      have hw : w = v := by simpa using h
      obtain ⟨k, hk⟩ := lookupFrame_mem f n w hf
      have := henv f (List.mem_cons_self _ _) (k, w) hk
      rwa [hw] at this

theorem irRequire_avail (st : Frames IRVar) (name : String) (v : IRVar)
    (ins : List Instruction)
    (h : irRequire st name = .ok v) (henv : EnvOkB st ins) :
    availB ins v = true := by
  unfold irRequire at h
  rcases hl : lookupFrames st name with _ | w
  · rw [hl] at h; cases h
  · rw [hl] at h
    have hw : w = v := by simpa using h
    have := lookupFrames_avail st name w ins hl henv
    rwa [hw] at this

theorem ok_triple_inj {α β γ ε : Type} {a a2 : α} {b b2 : β} {c c2 : γ}
    (h : (Except.ok (a, b, c) : Except ε (α × β × γ)) = .ok (a2, b2, c2)) :
    a = a2 ∧ b = b2 ∧ c = c2 :=
  ⟨congrArg Prod.fst (Except.ok.inj h),
   congrArg (fun p => p.2.1) (Except.ok.inj h),
   congrArg (fun p => p.2.2) (Except.ok.inj h)⟩

/-- `l2` extends `l` by a well-referenced segment: every variable a new
instruction reads is a dest of an earlier instruction, reserved, or `unit`. -/
def Extends (l l2 : List Instruction) : Prop :=
  ∃ d, l2 = l ++ d ∧ refsResolved true (dests l) d = true

theorem extends_refl (l : List Instruction) : Extends l l :=
  ⟨[], by simp, by simp [refsResolved]⟩

theorem extends_trans {l1 l2 l3 : List Instruction}
    (h1 : Extends l1 l2) (h2 : Extends l2 l3) : Extends l1 l3 := by
  obtain ⟨d1, rfl, hg1⟩ := h1
  obtain ⟨d2, rfl, hg2⟩ := h2
  exact ⟨d1 ++ d2, by rw [List.append_assoc], goodSeg_trans l1 d1 d2 hg1 hg2⟩

theorem extends_snoc (l : List Instruction) (i : Instruction)
    (h : ∀ v ∈ referencedVars i, availB l v = true) : Extends l (l ++ [i]) :=
  ⟨[i], rfl, goodSeg_single l i h⟩

theorem availB_extends {l l2 : List Instruction} (h : Extends l l2) {v : IRVar}
    (hv : availB l v = true) : availB l2 v = true := by
  obtain ⟨d, rfl, _⟩ := h
  exact availB_mono l d v hv

theorem envOkB_extends {st : Frames IRVar} {l l2 : List Instruction}
    (h : Extends l l2) (he : EnvOkB st l) : EnvOkB st l2 := by
  obtain ⟨d, rfl, _⟩ := h
  exact envOkB_mono st l d he

theorem availB_snoc_dest (l : List Instruction) (i : Instruction) (v : IRVar)
    (h : v ∈ destVars i) : availB (l ++ [i]) v = true :=
  availB_of_dest l [i] v (by simp [dests, h])

theorem extends_snoc2 {base l : List Instruction} (h : Extends base l)
    (i : Instruction) (hi : ∀ v ∈ referencedVars i, availB l v = true) :
    Extends base (l ++ [i]) :=
  extends_trans h (extends_snoc l i hi)

theorem extends_snoc3 (i : Instruction) {base l : List Instruction}
    (hi : ∀ v ∈ referencedVars i, availB l v = true) (h : Extends base l) :
    Extends base (l ++ [i]) :=
  extends_trans h (extends_snoc l i hi)

theorem availB_snoc (l : List Instruction) (i : Instruction) (v : IRVar)
    (h : availB l v = true) : availB (l ++ [i]) v = true :=
  availB_mono l [i] v h

theorem envOkB_snoc {st : Frames IRVar} {l : List Instruction} {i : Instruction}
    (h : EnvOkB st l) : EnvOkB st (l ++ [i]) :=
  envOkB_mono st l [i] h

mutual

/-- Each `visit` call only appends instructions whose referenced variables are
dests of earlier instructions, reserved names, or `unit`; the returned result
variable is itself available, and the symbol table stays available. -/
theorem visit_refs :
    ∀ (e : Expression) (st : Frames IRVar) (s : GenState)
      (v : IRVar) (st' : Frames IRVar) (s' : GenState),
    visit st e s = .ok (v, st', s') →
    EnvOkB st s.ins →
    Extends s.ins s'.ins ∧ availB s'.ins v = true ∧ EnvOkB st' s'.ins
  | .literal loc ty value, st, s, v, st', s', hv, henv => by
    cases value with
    | boolV b =>
      simp only [visit, new_var, emit] at hv
      obtain ⟨rfl, rfl, rfl⟩ := ok_triple_inj hv
      refine ⟨?_, ?_, ?_⟩
      · exact extends_snoc s.ins _ (by simp [referencedVars])
      · exact availB_snoc_dest s.ins _ _ (by simp [destVars])
      · exact envOkB_mono st s.ins _ henv
    | intV i =>
      simp only [visit, new_var, emit] at hv
      obtain ⟨rfl, rfl, rfl⟩ := ok_triple_inj hv
      refine ⟨?_, ?_, ?_⟩
      · exact extends_snoc s.ins _ (by simp [referencedVars])
      · exact availB_snoc_dest s.ins _ _ (by simp [destVars])
      · exact envOkB_mono st s.ins _ henv
    | noneV =>
      simp only [visit] at hv
      obtain ⟨rfl, rfl, rfl⟩ := ok_triple_inj hv
      exact ⟨extends_refl _, avail_unit _, henv⟩
  | .identifier loc ty name, st, s, v, st', s', hv, henv => by
    by_cases h1 : name = "true"
    · simp only [visit, h1, reduceIte, new_var, emit] at hv
      obtain ⟨rfl, rfl, rfl⟩ := ok_triple_inj hv
      refine ⟨?_, ?_, ?_⟩
      · exact extends_snoc s.ins _ (by simp [referencedVars])
      · exact availB_snoc_dest s.ins _ _ (by simp [destVars])
      · exact envOkB_mono st s.ins _ henv
    · by_cases h2 : name = "false"
      · simp only [visit, h1, h2, reduceIte, new_var, emit, if_neg] at hv
        obtain ⟨rfl, rfl, rfl⟩ := ok_triple_inj hv
        refine ⟨?_, ?_, ?_⟩
        · exact extends_snoc s.ins _ (by simp [referencedVars])
        · exact availB_snoc_dest s.ins _ _ (by simp [destVars])
        · exact envOkB_mono st s.ins _ henv
      · simp only [visit, h1, h2, reduceIte, bind, Except.bind, if_neg] at hv
        rcases hr : irRequire st name with msg | w
        · rw [hr] at hv; cases hv
        rw [hr] at hv
        dsimp only at hv
        obtain ⟨rfl, rfl, rfl⟩ := ok_triple_inj hv
        exact ⟨extends_refl _, irRequire_avail st name w s.ins hr henv, henv⟩
  | .unaryOp loc ty op x, st, s, v, st', s', hv, henv => by
    simp only [visit, bind, Except.bind] at hv
    rcases hop : irRequire st ("unary_" ++ op) with msg | var_op
    · rw [hop] at hv; cases hv
    rw [hop] at hv
    dsimp only at hv
    rcases hx : visit st x s with msg | ⟨vx, stx, sx⟩
    · rw [hx] at hv; cases hv
    rw [hx] at hv
    simp only [new_var, emit] at hv
    obtain ⟨rfl, rfl, rfl⟩ := ok_triple_inj hv
    obtain ⟨hext1, hav1, henv1⟩ := visit_refs x st s vx stx sx hx henv
    refine ⟨?_, ?_, ?_⟩
    · refine extends_snoc3 _ ?_ hext1
      intro w hw
      simp only [referencedVars, List.mem_cons, List.mem_singleton,
        List.not_mem_nil, or_false] at hw
      rcases hw with rfl | rfl
      · exact availB_extends hext1 (irRequire_avail st _ _ s.ins hop henv)
      · exact hav1
    · exact availB_snoc_dest sx.ins _ _ (by simp [destVars])
    · exact envOkB_mono stx sx.ins _ henv1
  | .binaryOp loc ty left op right, st, s, v, st', s', hv, henv => by
    simp only [visit, bind, Except.bind, new_var, new_label, emit] at hv
    split at hv
    next hop =>
      split at hv
      next => cases hv
      next =>
        rename_i p hL
        obtain ⟨vL, stL, sL⟩ := p
        split at hv
        next => cases hv
        next =>
          rename_i q hR
          obtain ⟨vR, stR, sR⟩ := q
          obtain ⟨rfl, rfl, rfl⟩ := ok_triple_inj hv
          obtain ⟨hext1, hav1, henv1⟩ := visit_refs left st s vL stL sL hL henv
          obtain ⟨hext2, hav2, henv2⟩ :=
            visit_refs right stL sL vR stR sR hR henv1
          refine ⟨?_, ?_, ?_⟩
          · refine extends_snoc3 _ ?_ (extends_trans hext1 hext2)
            intro w hw
            simp only [referencedVars, List.mem_singleton] at hw
            subst hw
            exact hav2
          · exact availB_snoc_dest sR.ins _ _ (by simp [destVars])
          · exact envOkB_snoc henv2
    next hop =>
      split at hv
      next hor =>
        split at hv
        next => cases hv
        next =>
          rename_i p hL
          obtain ⟨vL, st1, s4⟩ := p
          split at hv
          next => cases hv
          next =>
            rename_i q hR
            obtain ⟨vR, st2, s6⟩ := q
            obtain ⟨rfl, rfl, rfl⟩ := ok_triple_inj hv
            obtain ⟨hext1, hav1, henv1⟩ := visit_refs left st _ vL st1 s4 hL henv
            obtain ⟨hext2, hav2, henv2⟩ := visit_refs right st1 _ vR st2 s6 hR
              (envOkB_snoc (envOkB_snoc henv1))
            refine ⟨?_, ?_, ?_⟩
            · refine extends_snoc3 _ ?_ ?_
              · simp [referencedVars]
              refine extends_snoc3 _ ?_ ?_
              · simp [referencedVars]
              refine extends_snoc3 _ ?_ ?_
              · simp [referencedVars]
              refine extends_snoc3 _ ?_ ?_
              · simp [referencedVars]
              refine extends_snoc3 _ ?_ ?_
              · simp [referencedVars]
              refine extends_snoc3 _ ?_ ?_
              · intro w hw
                simp only [referencedVars, List.mem_singleton] at hw
                subst hw
                exact hav2
              refine extends_trans ?_ hext2
              refine extends_snoc3 _ ?_ ?_
              · simp [referencedVars]
              refine extends_snoc3 _ ?_ ?_
              · intro w hw
                simp only [referencedVars, List.mem_singleton] at hw
                subst hw
                exact hav1
              exact hext1
            · refine availB_snoc _ _ _ ?_
              refine availB_snoc _ _ _ ?_
              exact availB_snoc_dest _ _ _ (by simp [destVars])
            · exact envOkB_snoc (envOkB_snoc (envOkB_snoc (envOkB_snoc
                (envOkB_snoc (envOkB_snoc henv2)))))
      next hor =>
        split at hv
        next hand =>
          split at hv
          next => cases hv
          next =>
            rename_i p hL
            obtain ⟨vL, st1, s4⟩ := p
            split at hv
            next => cases hv
            next =>
              rename_i q hR
              obtain ⟨vR, st2, s6⟩ := q
              obtain ⟨rfl, rfl, rfl⟩ := ok_triple_inj hv
              obtain ⟨hext1, hav1, henv1⟩ :=
                visit_refs left st _ vL st1 s4 hL henv
              obtain ⟨hext2, hav2, henv2⟩ := visit_refs right st1 _ vR st2 s6 hR
                (envOkB_snoc (envOkB_snoc henv1))
              refine ⟨?_, ?_, ?_⟩
              · refine extends_snoc3 _ ?_ ?_
                · simp [referencedVars]
                refine extends_snoc3 _ ?_ ?_
                · simp [referencedVars]
                refine extends_snoc3 _ ?_ ?_
                · simp [referencedVars]
                refine extends_snoc3 _ ?_ ?_
                · simp [referencedVars]
                refine extends_snoc3 _ ?_ ?_
                · intro w hw
                  simp only [referencedVars, List.mem_singleton] at hw
                  subst hw
                  exact hav2
                refine extends_trans ?_ hext2
                refine extends_snoc3 _ ?_ ?_
                · simp [referencedVars]
                refine extends_snoc3 _ ?_ ?_
                · intro w hw
                  simp only [referencedVars, List.mem_singleton] at hw
                  subst hw
                  exact hav1
                exact hext1
              · refine availB_snoc _ _ _ ?_
                exact availB_snoc_dest _ _ _ (by simp [destVars])
              · exact envOkB_snoc (envOkB_snoc (envOkB_snoc (envOkB_snoc
                  (envOkB_snoc henv2))))
        next hand =>
          split at hv
          next => cases hv
          next =>
            rename_i var_op hop
            split at hv
            next => cases hv
            next =>
              rename_i p hL
              obtain ⟨vL, stL, sL⟩ := p
              split at hv
              next => cases hv
              next =>
                rename_i q hR
                obtain ⟨vR, stR, sR⟩ := q
                obtain ⟨rfl, rfl, rfl⟩ := ok_triple_inj hv
                obtain ⟨hext1, hav1, henv1⟩ :=
                  visit_refs left st s vL stL sL hL henv
                obtain ⟨hext2, hav2, henv2⟩ :=
                  visit_refs right stL sL vR stR sR hR henv1
                refine ⟨?_, ?_, ?_⟩
                · refine extends_snoc3 _ ?_ (extends_trans hext1 hext2)
                  intro w hw
                  simp only [referencedVars, List.mem_cons, List.mem_singleton,
                    List.not_mem_nil, or_false] at hw
                  rcases hw with rfl | rfl | rfl
                  · exact availB_extends (extends_trans hext1 hext2)
                      (irRequire_avail st op _ s.ins hop henv)
                  · exact availB_extends hext2 hav1
                  · exact hav2
                · exact availB_snoc_dest sR.ins _ _ (by simp [destVars])
                · exact envOkB_snoc henv2
  | .ifThenElse loc ty condition then_branch else_branch, st, s, v, st', s', hv, henv => by
    cases else_branch with
    | none =>
      simp only [visit, bind, Except.bind, new_var, new_label, emit] at hv
      split at hv
      next => cases hv
      next =>
        rename_i p hC
        obtain ⟨vc, st1, s3⟩ := p
        split at hv
        next => cases hv
        next =>
          rename_i q hT
          obtain ⟨vt, st2, s5⟩ := q
          obtain ⟨rfl, rfl, rfl⟩ := ok_triple_inj hv
          obtain ⟨hext1, hav1, henv1⟩ :=
            visit_refs condition st _ vc st1 s3 hC henv
          obtain ⟨hext2, hav2, henv2⟩ := visit_refs then_branch st1 _ vt st2 s5 hT
            (envOkB_snoc (envOkB_snoc henv1))
          refine ⟨?_, ?_, ?_⟩
          · refine extends_snoc3 _ ?_ ?_
            · simp [referencedVars]
            refine extends_trans ?_ hext2
            refine extends_snoc3 _ ?_ ?_
            · simp [referencedVars]
            refine extends_snoc3 _ ?_ ?_
            · intro w hw
              simp only [referencedVars, List.mem_singleton] at hw
              subst hw
              exact hav1
            exact hext1
          · exact avail_unit _
          · exact envOkB_snoc henv2
    | some eb =>
      simp only [visit, bind, Except.bind, new_var, new_label, emit] at hv
      split at hv
      next => cases hv
      next =>
        rename_i p hC
        obtain ⟨vc, st1, s4⟩ := p
        split at hv
        next => cases hv
        next =>
          rename_i q hT
          obtain ⟨vT, st2, s8⟩ := q
          split at hv
          next => cases hv
          next =>
            rename_i r hE
            obtain ⟨vE, st3, s11⟩ := r
            obtain ⟨rfl, rfl, rfl⟩ := ok_triple_inj hv
            obtain ⟨hext1, hav1, henv1⟩ :=
              visit_refs condition st _ vc st1 s4 hC henv
            obtain ⟨hext2, hav2, henv2⟩ := visit_refs then_branch st1 _ vT st2 s8 hT
              (envOkB_snoc (envOkB_snoc henv1))
            obtain ⟨hext3, hav3, henv3⟩ := visit_refs eb st2 _ vE st3 s11 hE
              (envOkB_snoc (envOkB_snoc (envOkB_snoc henv2)))
            refine ⟨?_, ?_, ?_⟩
            · refine extends_snoc3 _ ?_ ?_
              · simp [referencedVars]
              refine extends_snoc3 _ ?_ ?_
              · intro w hw
                simp only [referencedVars, List.mem_singleton] at hw
                subst hw
                exact hav3
              refine extends_trans ?_ hext3
              refine extends_snoc3 _ ?_ ?_
              · simp [referencedVars]
              refine extends_snoc3 _ ?_ ?_
              · simp [referencedVars]
              refine extends_snoc3 _ ?_ ?_
              · intro w hw
                simp only [referencedVars, List.mem_singleton] at hw
                subst hw
                exact hav2
              refine extends_trans ?_ hext2
              refine extends_snoc3 _ ?_ ?_
              · simp [referencedVars]
              refine extends_snoc3 _ ?_ ?_
              · intro w hw
                simp only [referencedVars, List.mem_singleton] at hw
                subst hw
                exact hav1
              exact hext1
            · refine availB_snoc _ _ _ ?_
              exact availB_snoc_dest _ _ _ (by simp [destVars])
            · exact envOkB_snoc (envOkB_snoc henv3)
  | .whileE loc ty condition body, st, s, v, st', s', hv, henv => by
    simp only [visit, bind, Except.bind, new_var, new_label, emit] at hv
    split at hv
    next => cases hv
    next =>
      rename_i p hC
      obtain ⟨vc, st1, s5⟩ := p
      split at hv
      next => cases hv
      next =>
        rename_i q hB
        obtain ⟨vb, st2, s7⟩ := q
        obtain ⟨rfl, rfl, rfl⟩ := ok_triple_inj hv
        obtain ⟨hext1, hav1, henv1⟩ := visit_refs condition st _ vc st1 s5 hC
          (envOkB_snoc henv)
        obtain ⟨hext2, hav2, henv2⟩ := visit_refs body st1 _ vb st2 s7 hB
          (envOkB_snoc (envOkB_snoc henv1))
        refine ⟨?_, ?_, ?_⟩
        · refine extends_snoc3 _ ?_ ?_
          · simp [referencedVars]
          refine extends_snoc3 _ ?_ ?_
          · simp [referencedVars]
          refine extends_trans ?_ hext2
          refine extends_snoc3 _ ?_ ?_
          · simp [referencedVars]
          refine extends_snoc3 _ ?_ ?_
          · intro w hw
            simp only [referencedVars, List.mem_singleton] at hw
            subst hw
            exact hav1
          refine extends_trans ?_ hext1
          refine extends_snoc3 _ ?_ ?_
          · simp [referencedVars]
          exact extends_refl _
        · exact avail_unit _
        · exact envOkB_snoc (envOkB_snoc henv2)
  | .functionExpr loc ty function_name arguments, st, s, v, st', s', hv, henv => by
    simp only [visit, bind, Except.bind, new_var, emit] at hv
    split at hv
    next => cases hv
    next =>
      rename_i p hF
      obtain ⟨vF, st1, s1⟩ := p
      split at hv
      next => cases hv
      next =>
        rename_i q hA
        obtain ⟨vAs, st2, s2⟩ := q
        obtain ⟨rfl, rfl, rfl⟩ := ok_triple_inj hv
        obtain ⟨hext1, hav1, henv1⟩ :=
          visit_refs function_name st s vF st1 s1 hF henv
        obtain ⟨hext2, hav2, henv2⟩ :=
          visitArgs_refs arguments st1 s1 vAs st2 s2 hA henv1
        refine ⟨?_, ?_, ?_⟩
        · refine extends_snoc3 _ ?_ (extends_trans hext1 hext2)
          intro w hw
          simp only [referencedVars, List.mem_cons] at hw
          rcases hw with rfl | hw
          · exact availB_extends hext2 hav1
          · exact hav2 w hw
        · exact availB_snoc_dest s2.ins _ _ (by simp [destVars])
        · exact envOkB_snoc henv2
  | .blockE loc ty statements, st, s, v, st', s', hv, henv => by
    simp only [visit, bind, Except.bind] at hv
    split at hv
    next => cases hv
    next =>
      rename_i p hS
      obtain ⟨lv, stI, sI⟩ := p
      obtain ⟨rfl, rfl, rfl⟩ := ok_triple_inj hv
      obtain ⟨hext, hav, henvI⟩ :=
        visitStmts_refs statements ([] :: st) s lv stI sI hS
          (envOkB_push st s.ins henv)
      refine ⟨hext, ?_, envOkB_tail stI sI.ins henvI⟩
      split
      · exact avail_unit _
      · exact hav
  | .funTypeE loc ty rt pt, st, s, v, st', s', hv, henv => by
    simp only [visit] at hv
    cases hv
  | .varE loc ty name initializer typed, st, s, v, st', s', hv, henv => by
    cases name with
    | exprName q =>
      simp only [visit] at hv
      cases hv
    | str nm =>
      simp only [visit, bind, Except.bind, new_var, emit] at hv
      split at hv
      next => cases hv
      next hnd =>
        split at hv
        next => cases hv
        next =>
          rename_i p hI
          obtain ⟨vI, st1, s1⟩ := p
          obtain ⟨rfl, rfl, rfl⟩ := ok_triple_inj hv
          obtain ⟨hext1, hav1, henv1⟩ :=
            visit_refs initializer st s vI st1 s1 hI henv
          refine ⟨?_, avail_unit _, ?_⟩
          · refine extends_snoc3 _ ?_ hext1
            intro w hw
            simp only [referencedVars, List.mem_singleton] at hw
            subst hw
            exact hav1
          · refine envOkB_define st1 _ nm _ (envOkB_snoc henv1) ?_
            exact availB_snoc_dest s1.ins _ _ (by simp [destVars])

/-- The statement loop preserves the same invariant as `visit`. -/
theorem visitStmts_refs :
    ∀ (es : List Expression) (st : Frames IRVar) (s : GenState)
      (v : IRVar) (st' : Frames IRVar) (s' : GenState),
    visitStmts st es s = .ok (v, st', s') →
    EnvOkB st s.ins →
    Extends s.ins s'.ins ∧ availB s'.ins v = true ∧ EnvOkB st' s'.ins
  | [], st, s, v, st', s', hv, henv => by
    simp only [visitStmts] at hv
    obtain ⟨rfl, rfl, rfl⟩ := ok_triple_inj hv
    exact ⟨extends_refl _, avail_unit _, henv⟩
  | [e], st, s, v, st', s', hv, henv => by
    simp only [visitStmts] at hv
    exact visit_refs e st s v st' s' hv henv
  | e :: e2 :: rest, st, s, v, st', s', hv, henv => by
    simp only [visitStmts, bind, Except.bind] at hv
    split at hv
    next => cases hv
    next =>
      rename_i p h1
      obtain ⟨v1, st1, s1⟩ := p
      obtain ⟨hext1, _, henv1⟩ := visit_refs e st s v1 st1 s1 h1 henv
      obtain ⟨hext2, hav2, henv2⟩ :=
        visitStmts_refs (e2 :: rest) st1 s1 v st' s' hv henv1
      exact ⟨extends_trans hext1 hext2, hav2, henv2⟩

/-- The argument loop preserves the invariant; every returned argument variable is
available in the final stream. -/
theorem visitArgs_refs :
    ∀ (es : List Expression) (st : Frames IRVar) (s : GenState)
      (vs : List IRVar) (st' : Frames IRVar) (s' : GenState),
    visitArgs st es s = .ok (vs, st', s') →
    EnvOkB st s.ins →
    Extends s.ins s'.ins ∧ (∀ w ∈ vs, availB s'.ins w = true)
    ∧ EnvOkB st' s'.ins
  | [], st, s, vs, st', s', hv, henv => by
    simp only [visitArgs] at hv
    obtain ⟨rfl, rfl, rfl⟩ := ok_triple_inj hv
    exact ⟨extends_refl _, by simp, henv⟩
  | e :: rest, st, s, vs, st', s', hv, henv => by
    simp only [visitArgs, bind, Except.bind] at hv
    split at hv
    next => cases hv
    next =>
      rename_i p h1
      obtain ⟨v1, st1, s1⟩ := p
      split at hv
      next => cases hv
      next =>
        rename_i q h2
        obtain ⟨vs2, st2, s2⟩ := q
        obtain ⟨rfl, rfl, rfl⟩ := ok_triple_inj hv
        obtain ⟨hext1, hav1, henv1⟩ := visit_refs e st s v1 st1 s1 h1 henv
        obtain ⟨hext2, hav2, henv2⟩ :=
          visitArgs_refs rest st1 s1 vs2 st2 s2 h2 henv1
        refine ⟨extends_trans hext1 hext2, ?_, henv2⟩
        intro w hw
        rcases List.mem_cons.mp hw with rfl | hw
        · exact availB_extends hext2 hav1
        · exact hav2 w hw

end

/-- C3 (amended): every variable an instruction of the generated IR references
is the dest of an earlier instruction, bears a reserved global name, or is the
singleton `unit` variable. -/
theorem generated_ir_references_are_prior_dests_reserved_or_unit
    (e : Expression) (l : List Instruction)
    (h : generate_ir reserved_names e = .ok l) :
    refsResolved true [] l = true := by
  have henv0 : EnvOkB [reserved_names.map (fun n => (n, (⟨n⟩ : IRVar)))]
      ([] : List Instruction) := by
    intro f hf p hp
    simp only [List.mem_singleton] at hf
    subst hf
    simp only [List.mem_map] at hp
    obtain ⟨n, hn, rfl⟩ := hp
    simp only [availB, Bool.or_eq_true, List.elem_iff]
    exact Or.inl (Or.inr hn)
  simp only [generate_ir, bind, Except.bind, new_var, emit] at h
  split at h
  next => cases h
  next =>
    rename_i p hV
    obtain ⟨v, stV, sV⟩ := p
    obtain ⟨hext, hav, _⟩ :=
      visit_refs e [reserved_names.map (fun n => (n, (⟨n⟩ : IRVar)))]
        ⟨1, 1, [], []⟩ v stV sV hV henv0
    split at h
    next =>
      have hl := (Except.ok.inj h).symm
      subst hl
      have hfin : Extends ([] : List Instruction)
          (sV.ins ++ [Instruction.call e.loc ⟨"print_int"⟩ [v]
            ⟨if sV.var_counter = 1 then "x" else "x" ++ toString sV.var_counter⟩]) := by
        refine extends_snoc3 _ ?_ hext
        intro w hw
        simp only [referencedVars, List.mem_cons, List.mem_singleton,
          List.not_mem_nil, or_false] at hw
        rcases hw with rfl | rfl
        · simp [availB, reserved_names]
        · exact hav
      obtain ⟨d, hd, hg⟩ := hfin
      rw [List.nil_append] at hd
      rw [hd]
      simpa [dests] using hg
    next =>
      split at h
      next =>
        have hl := (Except.ok.inj h).symm
        subst hl
        have hfin : Extends ([] : List Instruction)
            (sV.ins ++ [Instruction.call e.loc ⟨"print_bool"⟩ [v]
              ⟨if sV.var_counter = 1 then "x" else "x" ++ toString sV.var_counter⟩]) := by
          refine extends_snoc3 _ ?_ hext
          intro w hw
          simp only [referencedVars, List.mem_cons, List.mem_singleton,
            List.not_mem_nil, or_false] at hw
          rcases hw with rfl | rfl
          · simp [availB, reserved_names]
          · exact hav
        obtain ⟨d, hd, hg⟩ := hfin
        rw [List.nil_append] at hd
        rw [hd]
        simpa [dests] using hg
      next =>
        have hl := (Except.ok.inj h).symm
        subst hl
        obtain ⟨d, hd, hg⟩ := hext
        rw [List.nil_append] at hd
        rw [hd]
        simpa [dests] using hg

/-- Witness: the pipeline on `1 + 2` (already type-annotated) satisfies the
def-before-use scan. -/
theorem generated_ir_references_witness :
    refsResolved true []
      ((generate_ir reserved_names
        (.binaryOp ⟨1, 1⟩ Ty.int (.literal ⟨1, 1⟩ Ty.int (.intV 1)) "+"
          (.literal ⟨1, 5⟩ Ty.int (.intV 2)))).toOption.getD []) = true :=
  generated_ir_references_are_prior_dests_reserved_or_unit
    (.binaryOp ⟨1, 1⟩ Ty.int (.literal ⟨1, 1⟩ Ty.int (.intV 1)) "+"
      (.literal ⟨1, 5⟩ Ty.int (.intV 2))) _ (by with_unfolding_all rfl)
